import Mathlib

/-
A shallow embedding of the menu system core of this repository:
the hardware independent navigation state machine of
components/utils/util_menu_system.c together with the layout helpers of
the DOGM128-6 menu driver components/devices/lcd_dogm128_6/util_menu_driver.c.

Machine integers are modelled as Nat / Int with explicit wrapping at the
points where the C code stores into a uint8 / int8 / int16 object or
converts between these types.  Menus form a graph through numeric
identifiers: a store maps identifiers to menu records, modelling the C
heap of menu_t nodes, so that cross node writes (menuEnter linking the
submenu's parent pointer) are expressible.
-/

namespace MenuSys

/-- Value of a C uint8 object holding the integer x (conversion wraps mod 256). -/
def u8 (x : Int) : Int := x % 256

/-- Value of a C int8 object holding the integer x (two's complement wrap). -/
def i8 (x : Int) : Int := (x + 128) % 256 - 128

/-- Value of a C int16 object holding the integer x (two's complement wrap). -/
def i16 (x : Int) : Int := (x + 32768) % 65536 - 32768

/-! Flag constants from util_menu_system.h. -/

def M_DISABLED : Nat := 0x8000
def M_EXTEND : Nat := 0x4000
def M_SWAP : Nat := 0x2000
def M_PVALUE_2 : Nat := 0x1000
def M_PVALUE_1 : Nat := 0x0800
def M_PVALUE_0 : Nat := 0x0400
def M_ALIGN_1 : Nat := 0x0200
def M_ALIGN_0 : Nat := 0x0100
def M_DUMMY : Nat := M_EXTEND + M_DISABLED
def M_RIGHT : Nat := M_ALIGN_0
def M_CENTER : Nat := M_ALIGN_1
def M_SPLIT : Nat := M_ALIGN_1 + M_ALIGN_0
def M_FLOAT1 : Nat := M_PVALUE_0
def M_FLOAT2 : Nat := M_PVALUE_1
def M_FLOAT3 : Nat := M_PVALUE_1 + M_PVALUE_0
def M_FLOAT4 : Nat := M_PVALUE_2
def M_FLOAT5 : Nat := M_PVALUE_2 + M_PVALUE_0
def M_FLOATA : Nat := M_PVALUE_2 + M_PVALUE_1
def M_STRING : Nat := M_PVALUE_2 + M_PVALUE_1 + M_PVALUE_0

/-- The datum a menu item's pValue pointer refers to.  In C pValue is a
void pointer reinterpreted through the flag bits; here the pointee keeps
its construction type and a reinterpreting read of the wrong type yields
an unspecified default.  The C float type is modelled by Rat. -/
inductive MVal where
  | vint : Int → MVal
  | vfloat : Rat → MVal
  | vstr : String → MVal
deriving DecidableEq, Inhabited

/-- menuItem_t from util_menu_system.h.  Submenus are referred to by the
numeric identifier of a menu node in a store.  pApplication is the
callback's return value when a callback is attached (callback bodies are
external collaborators); pItemGraphics and pAppArgs are opaque. -/
structure MenuItem where
  flags : Nat := 0
  pTextNumber : Option String := none
  pTextDescription : Option String := none
  pValue : Option MVal := none
  pSubMenu : Option Nat := none
  pItemGraphics : Option Nat := none
  pApplication : Option Nat := none
  pAppArgs : Option Nat := none
deriving DecidableEq, Inhabited

/-- menu_t from util_menu_system.h.  uint8 fields are Nat (in range when
well formed), the int8 field nSelectedItem is Int. -/
structure Menu where
  pItems : List MenuItem := []
  pParentMenu : Option Nat := none
  pMenuGraphics : Option Nat := none
  pTextHeader : Option String := none
  pTextMenuItems : Option String := none
  nMenuItems : Nat := 0
  nCurrentItem : Nat := 0
  nSelectedItem : Int := -1
  nScreen : Nat := 0
  reservedAreas : Nat := 0
deriving DecidableEq, Inhabited

/-- Modelled from the spec: the constant MENU_ITEMS_PER_SCREEN of the
missing driver header util_menu_driver.h.  The display has 8 pages of
8 px; page 0 carries the header, so one screen shows the next 7 menu
items ("a picture displaying the first 7 menuItems is one screen"). -/
def MENU_ITEMS_PER_SCREEN : Nat := 7

/-- determineItemsPerScreen from util_menu_driver.c: start from the fixed
capacity and decrement once for each reserved page among bits 1..7 of
reservedAreas (bit 0, the header row, is skipped). -/
def determineItemsPerScreen (pMenu : Menu) : Nat :=
  (List.range 7).foldl
    (fun itemsPerScreen b =>
      if pMenu.reservedAreas.testBit (b + 1) then itemsPerScreen - 1 else itemsPerScreen)
    MENU_ITEMS_PER_SCREEN

/-- menuGetScreen from util_menu_driver.c: nItem / itemsPerScreen in
uint8 arithmetic.  Division by zero (every row reserved) is a caller
contract violation in C; Nat division makes it total here. -/
def menuGetScreen (pMenu : Menu) (nItem : Nat) : Nat :=
  nItem / determineItemsPerScreen pMenu

/-- The disabled test pItems[j].flags and M_DISABLED of the scan loops.  An
out of range access is unspecified in C and reads the default item here. -/
def itemDisabled (items : List MenuItem) (j : Nat) : Bool :=
  (items.getD j default).flags &&& M_DISABLED != 0

/-- The downward scan of menuUp: starting at index k and walking toward 0,
the first item whose disabled flag is clear, if any. -/
def scanUp (items : List MenuItem) : Nat → Option Nat
  | 0 => if itemDisabled items 0 then none else some 0
  | k + 1 => if itemDisabled items (k + 1) then scanUp items k else some (k + 1)

/-- Loop body of the upward scan of menuDown, with explicit fuel (the C
loop runs at most n - a times). -/
def scanDownGo (items : List MenuItem) (n : Nat) : Nat → Nat → Option Nat
  | 0, _ => none
  | f + 1, a =>
    if a < n then (if itemDisabled items a then scanDownGo items n f (a + 1) else some a)
    else none

/-- The upward scan of menuDown: starting at index a and walking toward
nMenuItems - 1, the first item whose disabled flag is clear, if any. -/
def scanDown (items : List MenuItem) (n a : Nat) : Option Nat :=
  scanDownGo items n (n - a) a

/-- menuUp from util_menu_system.c.  Returns the mutated menu and the C
return value (1 if the position changed, 0 if not).  The scan variable
attemptedItem is a C int8, so the search starts at i8 (nCurrentItem - 1)
and is skipped when that value is negative. -/
def menuUp (pMenu : Menu) : Menu × Nat :=
  let attemptedItem0 : Int := i8 ((pMenu.nCurrentItem : Int) - 1)
  let found : Option Nat :=
    if attemptedItem0 < 0 then none else scanUp pMenu.pItems attemptedItem0.toNat
  let attemptedItem : Int :=
    match found with
    | some j => (j : Int)
    | none => if attemptedItem0 < 0 then attemptedItem0 else -1
  let attemptedItemScreen : Int := i8 (menuGetScreen pMenu (u8 attemptedItem).toNat)
  let currentItemScreen : Int := i8 (menuGetScreen pMenu pMenu.nCurrentItem)
  let currentScreen : Int := i8 (pMenu.nScreen)
  if found.isSome ∧ attemptedItemScreen = currentScreen ∧ currentItemScreen = currentScreen then
    ({pMenu with nCurrentItem := (u8 attemptedItem).toNat}, 1)
  else if found.isSome ∧ attemptedItemScreen = currentScreen - 1 ∧
      currentItemScreen ≥ currentScreen then
    ({pMenu with nCurrentItem := (u8 attemptedItem).toNat,
                 nScreen := (u8 ((pMenu.nScreen : Int) - 1)).toNat}, 1)
  else if pMenu.nScreen > 0 then
    ({pMenu with nScreen := (u8 ((pMenu.nScreen : Int) - 1)).toNat}, 1)
  else
    (pMenu, 0)

/-- menuDown from util_menu_system.c.  All locals are C uint8 values; the
scan walks from nCurrentItem + 1 up to nMenuItems - 1.  When the scan
fails the loop leaves attemptedItem at max (start, nMenuItems). -/
def menuDown (pMenu : Menu) : Menu × Nat :=
  let attemptedItem0 : Nat := (u8 ((pMenu.nCurrentItem : Int) + 1)).toNat
  let found : Option Nat := scanDown pMenu.pItems pMenu.nMenuItems attemptedItem0
  let attemptedItem : Nat :=
    match found with
    | some j => j
    | none => max attemptedItem0 pMenu.nMenuItems
  let attemptedItemScreen : Nat := menuGetScreen pMenu attemptedItem
  let currentItemScreen : Nat := menuGetScreen pMenu pMenu.nCurrentItem
  let currentScreen : Nat := pMenu.nScreen
  let lastScreen : Nat :=
    if pMenu.nMenuItems > 0 then menuGetScreen pMenu (pMenu.nMenuItems - 1) else 0
  if found.isSome ∧ attemptedItemScreen = currentScreen ∧ currentItemScreen = currentScreen then
    ({pMenu with nCurrentItem := (u8 attemptedItem).toNat}, 1)
  else if found.isSome ∧ attemptedItemScreen = currentScreen + 1 ∧
      currentItemScreen ≤ currentScreen then
    ({pMenu with nCurrentItem := (u8 attemptedItem).toNat,
                 nScreen := (u8 ((pMenu.nScreen : Int) + 1)).toNat}, 1)
  else if pMenu.nScreen < lastScreen then
    ({pMenu with nScreen := (u8 ((pMenu.nScreen : Int) + 1)).toNat}, 1)
  else
    (pMenu, 0)

/-- The loop while (menuUp (pMenu)) of menuPositionTop, with explicit fuel. -/
def menuPositionTopAux : Nat → Menu → Menu
  | 0, m => m
  | f + 1, m =>
    let r := menuUp m
    if r.2 = 0 then r.1 else menuPositionTopAux f r.1

/-- menuPositionTop from util_menu_system.c: apply menuUp until it reports
no change.  Every changing menuUp step strictly decreases
nCurrentItem + nScreen (proved below), so this fuel always suffices. -/
def menuPositionTop (pMenu : Menu) : Menu :=
  menuPositionTopAux (pMenu.nCurrentItem + pMenu.nScreen + 1) pMenu

/-- The heap of menu_t nodes: menu identifiers to menu records. -/
abbrev Store := Nat → Menu

/-- Writing one menu node of the store. -/
def setMenu (σ : Store) (i : Nat) (m : Menu) : Store :=
  fun j => if j = i then m else σ j

/-- menuEnter from util_menu_system.c over a store.  Returns the new
store, the identifier of the menu the user is in afterwards, and whether
the item's callback ran.  The local nCurrentItem is a C int8. -/
def menuEnterS (σ : Store) (i : Nat) : Store × Nat × Bool :=
  let pMenu := σ i
  let nCurrentItem : Int := i8 (pMenu.nCurrentItem)
  let nCurrentItemScreen : Int := i8 (menuGetScreen pMenu (u8 nCurrentItem).toNat)
  if nCurrentItemScreen = (pMenu.nScreen : Int) then
    let item := pMenu.pItems.getD (u8 nCurrentItem).toNat default
    let pApp := item.pApplication
    let pSub := item.pSubMenu
    let σ1 := if pMenu.nSelectedItem > -1 then
        setMenu σ i {pMenu with nSelectedItem := nCurrentItem}
      else σ
    match pApp with
    | some r =>
      if r ≠ 0 then (σ1, i, true)
      else
        match pSub with
        | some s => (setMenu σ1 s {σ1 s with pParentMenu := some i}, s, true)
        | none => (σ1, i, true)
    | none =>
      match pSub with
      | some s => (setMenu σ1 s {σ1 s with pParentMenu := some i}, s, false)
      | none => (σ1, i, false)
  else
    (σ, i, false)

/-- menuBack from util_menu_system.c over a store: reset the cursor of
the menu being left according to nSelectedItem, then return the parent
identifier; a menu with no parent is returned unchanged. -/
def menuBackS (σ : Store) (i : Nat) : Store × Nat :=
  let pMenu := σ i
  match pMenu.pParentMenu with
  | some p =>
    let pMenu' :=
      if pMenu.nSelectedItem = -1 then menuPositionTop pMenu
      else if pMenu.nSelectedItem = -2 then pMenu
      else
        {pMenu with nCurrentItem := (u8 pMenu.nSelectedItem).toNat,
                    nScreen := menuGetScreen pMenu (u8 pMenu.nSelectedItem).toNat}
    (setMenu σ i pMenu', p)
  | none => (σ, i)

/-- The parent chasing loop of menuTop, with explicit fuel (the C loop
diverges on a cyclic parent chain, which is a malformed tree). -/
def menuTopGo (σ : Store) : Nat → Nat → Nat
  | 0, i => i
  | f + 1, i =>
    match (σ i).pParentMenu with
    | some p => menuTopGo σ f p
    | none => i

/-- menuTop from util_menu_system.c over a store: a pure read that follows
parent references; the store is returned untouched. -/
def menuTopS (σ : Store) (i fuel : Nat) : Store × Nat :=
  (σ, menuTopGo σ fuel i)

/-! The layout helpers of util_menu_driver.c.  The display driver itself
(lcd_dogm128_6) is an external collaborator whose headers are not part of
this repository snapshot, so its measurement interface and geometry
constants are carried in an environment record. -/

/-- Modelled from the spec: the drawing and measurement interface and the
geometry constants (LCD_COLS, LCD_CHAR_WIDTH, MENU_MARGIN) of the missing
headers lcd_dogm128_6.h and util_menu_driver.h.  measure(text), measure
of floats at a decimal count and of integers give character counts. -/
structure LcdEnv where
  charWidth : Nat := 6
  cols : Nat := 128
  margin : Nat := 3
  getStringLength : String → Nat := String.length
  getFloatLength : Rat → Nat → Nat := fun _ _ => 0
  getIntLength : Int → Nat := fun _ => 0

/-- One call into the external drawing interface, as issued by printItem. -/
inductive DrawCall where
  | printString : String → Int → Nat → DrawCall
  | printFloat : Rat → Nat → Int → Nat → DrawCall
  | printInt : Int → Int → Nat → DrawCall
deriving DecidableEq

/-- Reading the pValue pointee as a c-string.  A null pValue was replaced
by the internal dummyString, an empty string; reading memory of another
construction type as a string is unspecified in C and yields the empty
string here. -/
def asString : Option MVal → String
  | some (MVal.vstr s) => s
  | some _ => ""
  | none => ""

/-- Reading the pValue pointee as a float; a reinterpreting read of a
pointee of another type is unspecified and yields 0 here. -/
def asFloat : Option MVal → Rat
  | some (MVal.vfloat q) => q
  | _ => 0

/-- Reading the pValue pointee as an integer; a reinterpreting read of a
pointee of another type is unspecified and yields 0 here. -/
def asInt : Option MVal → Int
  | some (MVal.vint n) => n
  | _ => 0

/-- The C cast (int32) applied to a floating value: truncation toward 0. -/
def cTrunc (q : Rat) : Int := if q < 0 then -((-q).floor) else q.floor

/-- determineDecimals from util_menu_driver.c.  The C float arithmetic is
modelled by exact rationals; the truncating (int32) casts and the round
off corrections are translated literally. -/
def determineDecimals (number0 : Rat) : Nat :=
  let number1 : Rat := if number0 < 0 then number0 * (-1) else number0
  let number : Rat := number1 - (cTrunc number1 : Rat)
  let decimal_5 := cTrunc (100000 * number) * 1
  let decimal_4 := cTrunc (10000 * number) * 10
  let decimal_3 := cTrunc (1000 * number) * 100
  let decimal_2 := cTrunc (100 * number) * 1000
  let decimal_1 := cTrunc (10 * number) * 10000
  let decimal_0 := cTrunc (1 * number) * 100000
  let decimal_5 := if 100000 * number - (decimal_5 : Rat) > 1 / 2 then decimal_5 + 1 else decimal_5
  let decimal_4 := if 10000 * number - (decimal_4 : Rat) > 1 / 2 then decimal_4 + 1 else decimal_4
  let decimal_3 := if 1000 * number - (decimal_3 : Rat) > 1 / 2 then decimal_3 + 1 else decimal_3
  let decimal_2 := if 100 * number - (decimal_2 : Rat) > 1 / 2 then decimal_2 + 1 else decimal_2
  let decimal_1 := if 10 * number - (decimal_1 : Rat) > 1 / 2 then decimal_1 + 1 else decimal_1
  let decimal_0 := if 1 * number - (decimal_0 : Rat) > 1 / 2 then decimal_0 + 1 else decimal_0
  if decimal_5 ≠ decimal_4 then 5
  else if decimal_4 ≠ decimal_3 then 4
  else if decimal_3 ≠ decimal_2 then 3
  else if decimal_2 ≠ decimal_1 then 2
  else if decimal_1 = decimal_0 then 0
  else 1

/-- The layout and the draw calls computed by printItem for one item. -/
structure PrintItemResult where
  pValueFlagsEff : Nat
  nrSize : Nat
  descSize : Nat
  selSize : Nat
  valSize : Nat
  nrPos : Int
  descPos : Int
  valPos : Int
  selPos : Int
  calls : List DrawCall
deriving DecidableEq

/-- printItem from util_menu_driver.c: sizes (uint8), positions (int16)
and the draw calls for the three fields of one item row.  A null pValue
is replaced by the dummy empty string and the value kind is forced to
M_STRING.  uint8 sizes and int16 positions wrap exactly where the C
stores do; the int division of the centered position truncates. -/
def printItem (env : LcdEnv) (pMenu : Menu) (nItem page nrSize0 : Nat) : PrintItemResult :=
  let pItem := pMenu.pItems.getD nItem default
  let selected : Bool := (nItem : Int) = pMenu.nSelectedItem
  let pTextNumber := pItem.pTextNumber.getD ""
  let pTextDescription := pItem.pTextDescription.getD ""
  let alignFlags := pItem.flags &&& (M_ALIGN_0 + M_ALIGN_1)
  let pValueFlags0 := pItem.flags &&& (M_PVALUE_0 + M_PVALUE_1 + M_PVALUE_2)
  let pValueFlags := if pItem.pValue = none then M_STRING else pValueFlags0
  let nrSize : Nat :=
    if nrSize0 = 0 then (u8 ((env.getStringLength pTextNumber : Int) * env.charWidth)).toNat
    else nrSize0
  let descSize : Nat := (u8 ((env.getStringLength pTextDescription : Int) * env.charWidth)).toNat
  let selSize : Nat :=
    (u8 ((if pMenu.nSelectedItem ≠ -1 then 1 else 0) * (env.charWidth : Int))).toNat
  let valDecimals : Nat := determineDecimals (asFloat pItem.pValue)
  let valSize : Nat :=
    if pValueFlags = M_FLOAT1 then
      (u8 ((env.getFloatLength (asFloat pItem.pValue) 1 : Int) * env.charWidth)).toNat
    else if pValueFlags = M_FLOAT2 then
      (u8 ((env.getFloatLength (asFloat pItem.pValue) 2 : Int) * env.charWidth)).toNat
    else if pValueFlags = M_FLOAT3 then
      (u8 ((env.getFloatLength (asFloat pItem.pValue) 3 : Int) * env.charWidth)).toNat
    else if pValueFlags = M_FLOAT4 then
      (u8 ((env.getFloatLength (asFloat pItem.pValue) 4 : Int) * env.charWidth)).toNat
    else if pValueFlags = M_FLOAT5 then
      (u8 ((env.getFloatLength (asFloat pItem.pValue) 5 : Int) * env.charWidth)).toNat
    else if pValueFlags = M_FLOATA then
      (u8 ((env.getFloatLength (asFloat pItem.pValue) valDecimals : Int) * env.charWidth)).toNat
    else if pValueFlags = M_STRING then
      (u8 ((env.getStringLength (asString pItem.pValue) : Int) * env.charWidth)).toNat
    else
      (u8 ((env.getIntLength (asInt pItem.pValue) : Int) * env.charWidth)).toNat
  let numOfMargins : Int :=
    (if nrSize ≠ 0 then 1 else 0) + (if descSize ≠ 0 then 1 else 0) +
      (if valSize ≠ 0 then 1 else 0) - 1
  let totalSize : Int :=
    i16 ((nrSize : Int) + descSize + valSize + numOfMargins * env.charWidth)
  let nrPos : Int :=
    if alignFlags = M_RIGHT then i16 ((env.cols : Int) - env.margin - totalSize)
    else if alignFlags = M_CENTER then i16 (((env.cols : Int) - env.margin - totalSize).tdiv 2)
    else i16 (env.margin : Int)
  let selPos : Int := i16 (nrPos + nrSize)
  let positions : Int × Int :=
    if pItem.flags &&& M_SWAP ≠ 0 then
      let valPos := i16 (nrPos + nrSize)
      let valPos := if nrSize ≠ 0 ∨ selSize ≠ 0 then i16 (valPos + env.charWidth) else valPos
      let descPos :=
        if alignFlags = M_SPLIT then i16 ((env.cols : Int) - env.margin - descSize)
        else
          let descPos := i16 (valPos + valSize)
          if valSize ≠ 0 then i16 (descPos + env.charWidth) else descPos
      (descPos, valPos)
    else
      let descPos := i16 (nrPos + nrSize)
      let descPos := if nrSize ≠ 0 ∨ selSize ≠ 0 then i16 (descPos + env.charWidth) else descPos
      let valPos :=
        if alignFlags = M_SPLIT then i16 ((env.cols : Int) - env.margin - valSize)
        else
          let valPos := i16 (descPos + descSize)
          if descSize ≠ 0 then i16 (valPos + env.charWidth) else valPos
      (descPos, valPos)
  let descPos := positions.1
  let valPos := positions.2
  let valueCall : DrawCall :=
    if pValueFlags = M_STRING then DrawCall.printString (asString pItem.pValue) valPos page
    else if pValueFlags = M_FLOAT1 then DrawCall.printFloat (asFloat pItem.pValue) 1 valPos page
    else if pValueFlags = M_FLOAT2 then DrawCall.printFloat (asFloat pItem.pValue) 2 valPos page
    else if pValueFlags = M_FLOAT3 then DrawCall.printFloat (asFloat pItem.pValue) 3 valPos page
    else if pValueFlags = M_FLOAT4 then DrawCall.printFloat (asFloat pItem.pValue) 4 valPos page
    else if pValueFlags = M_FLOAT5 then DrawCall.printFloat (asFloat pItem.pValue) 5 valPos page
    else if pValueFlags = M_FLOATA then
      DrawCall.printFloat (asFloat pItem.pValue) valDecimals valPos page
    else DrawCall.printInt (asInt pItem.pValue) valPos page
  { pValueFlagsEff := pValueFlags, nrSize := nrSize, descSize := descSize, selSize := selSize,
    valSize := valSize, nrPos := nrPos, descPos := descPos, valPos := valPos, selPos := selPos,
    calls :=
      [DrawCall.printString pTextNumber nrPos page,
       DrawCall.printString pTextDescription descPos page] ++
      (if selected then [DrawCall.printString "~" selPos page] else []) ++ [valueCall] }

/-! Spec side definitions used to state the claims. -/

/-- A menu with its cursor fields zeroed; two menus with equal erasures
differ at most in the cursor triple. -/
def eraseCursor (m : Menu) : Menu :=
  {m with nCurrentItem := 0, nSelectedItem := 0, nScreen := 0}

/-- A menu with its cursor fields and parent back reference zeroed. -/
def eraseCursorParent (m : Menu) : Menu :=
  {eraseCursor m with pParentMenu := none}

/-- No item of the menu has its disabled flag clear. -/
def noEnabled (m : Menu) : Prop :=
  ∀ j, j < m.nMenuItems → itemDisabled m.pItems j = true

/-- The number of reserved rows among bits 1 through 7 of a mask. -/
def reservedCount17 (r : Nat) : Nat :=
  (List.range 7).countP (fun b => r.testBit (b + 1))

/-! Arithmetic facts about the wrapping helpers. -/

theorem u8_nonneg (x : Int) : 0 ≤ u8 x := by unfold u8; omega

theorem u8_lt256 (x : Int) : u8 x < 256 := by unfold u8; omega

theorem u8_id {x : Int} (h0 : 0 ≤ x) (h1 : x ≤ 255) : u8 x = x := by unfold u8; omega

theorem u8_toNat_id {n : Nat} (h : n ≤ 255) : (u8 (n : Int)).toNat = n := by unfold u8; omega

theorem i8_id {x : Int} (h0 : -128 ≤ x) (h1 : x ≤ 127) : i8 x = x := by unfold i8; omega

theorem u8_i8_toNat_id {n : Nat} (h : n ≤ 255) : (u8 (i8 (n : Int))).toNat = n := by
  unfold u8 i8; omega

/-- A foldl that decrements once per satisfying element counts with countP. -/
theorem foldl_dec_countP (l : List Nat) (p : Nat → Bool) (s : Nat) (h : l.countP p ≤ s) :
    l.foldl (fun a b => if p b then a - 1 else a) s = s - l.countP p := by
  induction l generalizing s with
  | nil => simp
  | cons hd tl ih =>
    rw [List.countP_cons] at h ⊢
    rw [List.foldl_cons]
    cases hp : p hd with
    | true =>
      simp only [hp, if_true] at h ⊢
      rw [ih (s := s - 1) (by omega)]
      omega
    | false =>
      simp only [hp, Bool.false_eq_true, if_false] at h ⊢
      rw [ih (s := s) (by omega)]
      omega

theorem reservedCount17_le (r : Nat) : reservedCount17 r ≤ 7 := by
  have := List.countP_le_length (l := List.range 7) (p := fun b => r.testBit (b + 1))
  simpa [reservedCount17] using this

theorem determineItemsPerScreen_eq (m : Menu) :
    determineItemsPerScreen m = MENU_ITEMS_PER_SCREEN - reservedCount17 m.reservedAreas := by
  unfold determineItemsPerScreen
  exact foldl_dec_countP _ _ _ (by simpa [MENU_ITEMS_PER_SCREEN] using reservedCount17_le m.reservedAreas)

/-- C8: determineItemsPerScreen is the fixed capacity minus the number of
reserved rows among bits 1..7; the header bit 0 never contributes (setting
or clearing it leaves the result unchanged), and each additional reserved
non header bit decreases the (then positive) result by exactly one. -/
theorem determineItemsPerScreen_spec :
    (∀ m : Menu,
      determineItemsPerScreen m = MENU_ITEMS_PER_SCREEN - reservedCount17 m.reservedAreas) ∧
    (∀ m : Menu,
      determineItemsPerScreen {m with reservedAreas := m.reservedAreas ||| 1} =
        determineItemsPerScreen m ∧
      determineItemsPerScreen {m with reservedAreas := m.reservedAreas &&& 254} =
        determineItemsPerScreen m) ∧
    (∀ (m : Menu) (b : Nat), 1 ≤ b → b ≤ 7 → m.reservedAreas.testBit b = false →
      1 ≤ determineItemsPerScreen m ∧
      determineItemsPerScreen {m with reservedAreas := m.reservedAreas ||| 2 ^ b} =
        determineItemsPerScreen m - 1) := by
  refine ⟨determineItemsPerScreen_eq, fun m => ?_, fun m b hb1 hb7 hbit => ?_⟩
  · constructor
    · rw [determineItemsPerScreen_eq, determineItemsPerScreen_eq]
      have : reservedCount17 (m.reservedAreas ||| 1) = reservedCount17 m.reservedAreas := by
        unfold reservedCount17
        refine List.countP_congr (fun a ha => ?_)
        have ha7 : a < 7 := List.mem_range.mp ha
        have h1 : Nat.testBit 1 (a + 1) = false := by
          have : (1 : Nat) = 2 ^ 0 := rfl
          rw [this, Nat.testBit_two_pow_of_ne (by omega)]
        simp [Nat.testBit_or, h1]
      simp [this]
    · rw [determineItemsPerScreen_eq, determineItemsPerScreen_eq]
      have : reservedCount17 (m.reservedAreas &&& 254) = reservedCount17 m.reservedAreas := by
        unfold reservedCount17
        refine List.countP_congr (fun a ha => ?_)
        have ha7 : a < 7 := List.mem_range.mp ha
        have h254 : Nat.testBit 254 (a + 1) = true := by
          interval_cases a <;> decide
        simp [Nat.testBit_and, h254]
      simp [this]
  · have hcount : reservedCount17 (m.reservedAreas ||| 2 ^ b) =
        reservedCount17 m.reservedAreas + 1 := by
      unfold reservedCount17
      rw [show List.range 7 = [0, 1, 2, 3, 4, 5, 6] from rfl]
      simp only [List.countP_cons, List.countP_nil, Nat.testBit_or]
      interval_cases b <;>
        simp only [Nat.testBit_two_pow] <;>
        norm_num [hbit] <;> omega
    have hler : reservedCount17 m.reservedAreas ≤ 6 := by
      have h7 := reservedCount17_le (m.reservedAreas ||| 2 ^ b)
      omega
    constructor
    · rw [determineItemsPerScreen_eq]
      unfold MENU_ITEMS_PER_SCREEN
      omega
    · rw [determineItemsPerScreen_eq, determineItemsPerScreen_eq, hcount]
      unfold MENU_ITEMS_PER_SCREEN
      omega

/-- Witness for determineItemsPerScreen_spec at a concrete menu and bit. -/
theorem determineItemsPerScreen_spec_witness :
    (1 ≤ (2 : Nat) ∧ (2 : Nat) ≤ 7 ∧ Nat.testBit 1 2 = false) ∧
    (1 ≤ determineItemsPerScreen {reservedAreas := 1} ∧
      determineItemsPerScreen {({reservedAreas := 1} : Menu) with reservedAreas := 1 ||| 2 ^ 2} =
        determineItemsPerScreen {reservedAreas := 1} - 1) :=
  ⟨by decide, determineItemsPerScreen_spec.2.2 {reservedAreas := 1} 2 (by decide) (by decide)
    (by decide)⟩

/-! Frame lemmas: navigation writes only the cursor fields, except for
the parent link that menuEnter refreshes on the entered submenu. -/

theorem eraseCursor_menuUp (m : Menu) : eraseCursor (menuUp m).1 = eraseCursor m := by
  simp only [menuUp]
  repeat' split
  all_goals rfl

theorem eraseCursor_menuDown (m : Menu) : eraseCursor (menuDown m).1 = eraseCursor m := by
  simp only [menuDown]
  repeat' split
  all_goals rfl

theorem eraseCursor_posTopAux (f : Nat) :
    ∀ m, eraseCursor (menuPositionTopAux f m) = eraseCursor m := by
  induction f with
  | zero => intro m; rfl
  | succ f ih =>
    intro m
    simp only [menuPositionTopAux]
    split
    · exact eraseCursor_menuUp m
    · rw [ih (menuUp m).1, eraseCursor_menuUp m]

theorem eraseCursor_menuPositionTop (m : Menu) :
    eraseCursor (menuPositionTop m) = eraseCursor m :=
  eraseCursor_posTopAux _ m

theorem eraseCursorParent_setMenu (σ : Store) (i : Nat) (m' : Menu) (j : Nat)
    (h : eraseCursorParent m' = eraseCursorParent (σ i)) :
    eraseCursorParent (setMenu σ i m' j) = eraseCursorParent (σ j) := by
  unfold setMenu
  by_cases hj : j = i <;> simp [hj, h]

theorem eraseCursor_setMenu (σ : Store) (i : Nat) (m' : Menu) (j : Nat)
    (h : eraseCursor m' = eraseCursor (σ i)) :
    eraseCursor (setMenu σ i m' j) = eraseCursor (σ j) := by
  unfold setMenu
  by_cases hj : j = i <;> simp [hj, h]

theorem eraseCursorParent_eraseCursor (m m' : Menu)
    (h : eraseCursor m' = eraseCursor m) :
    eraseCursorParent m' = eraseCursorParent m := by
  unfold eraseCursorParent
  rw [h]

/-- C2, as stated, fails: menuEnter on an item carrying a submenu writes
that submenu's pParentMenu field (the lazy back link), so not every non
cursor field of every node is left unchanged.  Concrete input: store
stRoot, menu 0 whose item 0 links submenu 1; the parent pointer of menu 1
changes from none to some 0. -/
def mRoot : Menu := { pItems := [{ pSubMenu := some 1 }], nMenuItems := 1 }

def stRoot : Store := fun j => if j = 0 then mRoot else {}

theorem menuEnter_rewrites_submenu_parent :
    ((menuEnterS stRoot 0).1 1).pParentMenu ≠ (stRoot 1).pParentMenu := by decide

/-- C2 (amended): every navigation operation (menuUp, menuDown,
menuPositionTop, menuBack, menuTop, menuEnter) mutates only the cursor
fields nCurrentItem, nScreen, nSelectedItem of the menu nodes, except
that menuEnter may additionally set the pParentMenu back reference of the
submenu it descends into; every other field of every node, in particular
pItems, nMenuItems, reservedAreas and all item contents, is unchanged. -/
theorem nav_mutates_only_cursor_fields :
    (∀ m : Menu, eraseCursor (menuUp m).1 = eraseCursor m) ∧
    (∀ m : Menu, eraseCursor (menuDown m).1 = eraseCursor m) ∧
    (∀ m : Menu, eraseCursor (menuPositionTop m) = eraseCursor m) ∧
    (∀ (σ : Store) (i j : Nat), eraseCursor ((menuBackS σ i).1 j) = eraseCursor (σ j)) ∧
    (∀ (σ : Store) (i fuel : Nat), (menuTopS σ i fuel).1 = σ) ∧
    (∀ (σ : Store) (i j : Nat),
      eraseCursorParent ((menuEnterS σ i).1 j) = eraseCursorParent (σ j) ∧
      (j ≠ (menuEnterS σ i).2.1 → ((menuEnterS σ i).1 j).pParentMenu = (σ j).pParentMenu)) := by
  refine ⟨eraseCursor_menuUp, eraseCursor_menuDown, eraseCursor_menuPositionTop,
    fun σ i j => ?_, fun σ i fuel => rfl, fun σ i j => ?_⟩
  · simp only [menuBackS]
    cases hp : (σ i).pParentMenu with
    | none => rfl
    | some p =>
      refine eraseCursor_setMenu σ i _ j ?_
      split
      · exact eraseCursor_menuPositionTop (σ i)
      · split
        · rfl
        · simp [eraseCursor, hp]
  · simp only [menuEnterS]
    split
    case isFalse h => exact ⟨rfl, fun _ => rfl⟩
    case isTrue h =>
      have hσ1 : ∀ σ1 : Store,
          (∀ k, eraseCursorParent (σ1 k) = eraseCursorParent (σ k)) →
          (∀ k, (σ1 k).pParentMenu = (σ k).pParentMenu) →
          ∀ (s : Nat),
            eraseCursorParent
              (setMenu σ1 s {σ1 s with pParentMenu := some i} j) =
              eraseCursorParent (σ j) ∧
            (j ≠ s →
              (setMenu σ1 s {σ1 s with pParentMenu := some i} j).pParentMenu =
                (σ j).pParentMenu) := by
        intro σ1 hcp hpp s
        constructor
        · rw [← hcp j]
          refine eraseCursorParent_setMenu σ1 s _ j ?_
          rfl
        · intro hjs
          rw [← hpp j]
          unfold setMenu
          simp [hjs]
      have hsel1 : ∀ k,
          eraseCursorParent
            ((if (σ i).nSelectedItem > -1 then
                setMenu σ i {σ i with nSelectedItem := i8 ((σ i).nCurrentItem : Int)}
              else σ) k) = eraseCursorParent (σ k) := by
        intro k
        split
        · refine eraseCursorParent_setMenu σ i _ k ?_; rfl
        · rfl
      have hsel2 : ∀ k,
          ((if (σ i).nSelectedItem > -1 then
              setMenu σ i {σ i with nSelectedItem := i8 ((σ i).nCurrentItem : Int)}
            else σ) k).pParentMenu = (σ k).pParentMenu := by
        intro k
        split
        · unfold setMenu; by_cases hk : k = i <;> simp [hk]
        · rfl
      split
      case h_1 r hr =>
        split
        case isTrue hne => exact ⟨hsel1 j, fun _ => hsel2 j⟩
        case isFalse hne =>
          split
          case h_1 s hs => exact hσ1 _ hsel1 hsel2 s
          case h_2 hs => exact ⟨hsel1 j, fun _ => hsel2 j⟩
      case h_2 hr =>
        split
        case h_1 s hs => exact hσ1 _ hsel1 hsel2 s
        case h_2 hs => exact ⟨hsel1 j, fun _ => hsel2 j⟩

/-- Witness for nav_mutates_only_cursor_fields: the inner frame condition
applied at the concrete store stRoot (menu 0 is not the entered menu 1,
so its parent pointer is untouched). -/
theorem nav_mutates_only_cursor_fields_witness :
    (0 : Nat) ≠ (menuEnterS stRoot 0).2.1 ∧
    ((menuEnterS stRoot 0).1 0).pParentMenu = (stRoot 0).pParentMenu :=
  ⟨by decide, ((nav_mutates_only_cursor_fields.2.2.2.2.2 stRoot 0 0).2 (by decide))⟩

/-- C1, as stated, fails: with the frozen selection sentinel -2 (which is
not -1) menuEnter leaves nSelectedItem untouched, because the code tests
nSelectedItem greater than -1, not different from -1.  Concrete input: a
one item menu with nSelectedItem = -2, current item 0 on screen 0. -/
def mFrozen : Menu := { pItems := [{}], nMenuItems := 1, nSelectedItem := -2 }

def stFrozen : Store := fun _ => mFrozen

theorem menuEnter_neg2_keeps_selection :
    (stFrozen 0).nSelectedItem ≠ -1 ∧
    menuGetScreen (stFrozen 0) (stFrozen 0).nCurrentItem = (stFrozen 0).nScreen ∧
    ((menuEnterS stFrozen 0).1 0).nSelectedItem ≠ ((stFrozen 0).nCurrentItem : Int) := by
  decide

/-- C1 (amended): for every menu whose current item's screen equals the
current screen index, if the selected item index is greater than -1 (the
persistent selection concept in use and not frozen), menuEnter sets the
selected item index to the current item index. -/
theorem menuEnter_select_on_enter (σ : Store) (i : Nat)
    (hcur : (σ i).nCurrentItem ≤ 127)
    (hscr : menuGetScreen (σ i) (σ i).nCurrentItem = (σ i).nScreen)
    (hsel : (σ i).nSelectedItem > -1) :
    ((menuEnterS σ i).1 i).nSelectedItem = ((σ i).nCurrentItem : Int) := by
  have hscr127 : (σ i).nScreen ≤ 127 := by
    rw [← hscr]; exact le_trans (Nat.div_le_self _ _) hcur
  have h1 : (u8 (i8 ((σ i).nCurrentItem : Int))).toNat = (σ i).nCurrentItem := by
    unfold u8 i8; omega
  have h8 : i8 ((σ i).nCurrentItem : Int) = ((σ i).nCurrentItem : Int) := by
    unfold i8; omega
  have hcond :
      i8 ((menuGetScreen (σ i) (u8 (i8 ((σ i).nCurrentItem : Int))).toNat : Nat) : Int) =
        ((σ i).nScreen : Int) := by
    rw [h1, hscr]
    unfold i8; omega
  have hpar : ∀ (τ : Store) (s : Nat),
      ((setMenu τ s {τ s with pParentMenu := some i}) i).nSelectedItem =
        (τ i).nSelectedItem := by
    intro τ s
    unfold setMenu
    by_cases hi : i = s <;> simp [hi]
  have hσ2 :
      (setMenu σ i {σ i with nSelectedItem := i8 ((σ i).nCurrentItem : Int)} i).nSelectedItem =
        ((σ i).nCurrentItem : Int) := by
    unfold setMenu; simp [h8]
  simp only [menuEnterS]
  rw [if_pos hcond, if_pos hsel]
  repeat' split
  all_goals first
    | exact hσ2
    | (rw [hpar]; exact hσ2)

/-- Witness for menuEnter_select_on_enter: a two item menu with selected
item 1 and current item 0; entering selects item 0. -/
def mSel : Menu := { pItems := [{}, {}], nMenuItems := 2, nSelectedItem := 1 }

def stSel : Store := fun _ => mSel

theorem menuEnter_select_on_enter_witness :
    ((stSel 0).nCurrentItem ≤ 127 ∧
      menuGetScreen (stSel 0) (stSel 0).nCurrentItem = (stSel 0).nScreen ∧
      (stSel 0).nSelectedItem > -1) ∧
    ((menuEnterS stSel 0).1 0).nSelectedItem = ((stSel 0).nCurrentItem : Int) :=
  ⟨⟨by decide, by decide, by decide⟩,
    menuEnter_select_on_enter stSel 0 (by decide) (by decide) (by decide)⟩

/-- C7: for every menu in which the current item's screen differs from
the current screen index, menuEnter is a complete no op: the store, the
current menu identifier and the callback indicator are unchanged, so no
cursor field mutates, no callback runs and no submenu is returned or
linked. -/
theorem menuEnter_offscreen_noop (σ : Store) (i : Nat)
    (hcur : (σ i).nCurrentItem ≤ 255)
    (hne : menuGetScreen (σ i) (σ i).nCurrentItem ≠ (σ i).nScreen) :
    menuEnterS σ i = (σ, i, false) := by
  have h1 : (u8 (i8 ((σ i).nCurrentItem : Int))).toNat = (σ i).nCurrentItem := by
    unfold u8 i8; omega
  have hv : menuGetScreen (σ i) (σ i).nCurrentItem ≤ 255 :=
    le_trans (Nat.div_le_self _ _) hcur
  have hcond :
      ¬(i8 ((menuGetScreen (σ i) (u8 (i8 ((σ i).nCurrentItem : Int))).toNat : Nat) : Int) =
        ((σ i).nScreen : Int)) := by
    rw [h1]
    unfold i8
    omega
  simp only [menuEnterS]
  rw [if_neg hcond]

/-- Witness for menuEnter_offscreen_noop: eight items on screens 0 and 1,
current item 7 (screen 1) while screen 0 is displayed. -/
def mOff : Menu :=
  { pItems := List.replicate 7 ({ flags := M_DISABLED } : MenuItem) ++ [{}],
    nMenuItems := 8, nCurrentItem := 7, nScreen := 0 }

def stOff : Store := fun _ => mOff

theorem menuEnter_offscreen_noop_witness :
    ((stOff 0).nCurrentItem ≤ 255 ∧
      menuGetScreen (stOff 0) (stOff 0).nCurrentItem ≠ (stOff 0).nScreen) ∧
    menuEnterS stOff 0 = (stOff, 0, false) :=
  ⟨⟨by decide, by decide⟩, menuEnter_offscreen_noop stOff 0 (by decide) (by decide)⟩

/-- C6: menuBack with no parent returns the same menu and store; with a
parent it returns the parent identifier after resetting the cursor of the
menu being left: to the top via menuPositionTop when nSelectedItem is -1,
not at all when it is -2, and to the selected item and its screen when it
is at least 0. -/
theorem menuBack_spec (σ : Store) (i : Nat) (hsel : (σ i).nSelectedItem ≤ 127) :
    ((σ i).pParentMenu = none → menuBackS σ i = (σ, i)) ∧
    (∀ p, (σ i).pParentMenu = some p →
      (menuBackS σ i).2 = p ∧
      ((σ i).nSelectedItem = -1 → (menuBackS σ i).1 i = menuPositionTop (σ i)) ∧
      ((σ i).nSelectedItem = -2 → (menuBackS σ i).1 i = σ i) ∧
      (0 ≤ (σ i).nSelectedItem →
        ((menuBackS σ i).1 i).nCurrentItem = ((σ i).nSelectedItem).toNat ∧
        ((menuBackS σ i).1 i).nScreen =
          menuGetScreen (σ i) ((σ i).nSelectedItem).toNat)) := by
  constructor
  · intro hp
    simp only [menuBackS, hp]
  · intro p hp
    simp only [menuBackS, hp]
    refine ⟨by trivial, ?_, ?_, ?_⟩
    · intro h1
      rw [if_pos h1]
      unfold setMenu
      simp
    · intro h2
      rw [if_neg (by omega), if_pos h2]
      unfold setMenu
      simp
    · intro h3
      have hne1 : ¬(σ i).nSelectedItem = -1 := by omega
      have hne2 : ¬(σ i).nSelectedItem = -2 := by omega
      rw [if_neg hne1, if_neg hne2]
      unfold setMenu
      have hu : (u8 (σ i).nSelectedItem).toNat = ((σ i).nSelectedItem).toNat := by
        unfold u8; omega
      simp [hu]

/-- Witness for menuBack_spec: a child menu at identifier 0 with parent 5
and frozen selection -2; menuBack returns 5 and leaves the cursor as is. -/
def mChild : Menu := { pItems := [{}], nMenuItems := 1, pParentMenu := some 5,
                       nSelectedItem := -2 }

def stChild : Store := fun _ => mChild

theorem menuBack_spec_witness :
    ((stChild 0).nSelectedItem ≤ 127 ∧ (stChild 0).pParentMenu = some 5 ∧
      (stChild 0).nSelectedItem = -2) ∧
    ((menuBackS stChild 0).2 = 5 ∧ (menuBackS stChild 0).1 0 = stChild 0) :=
  ⟨⟨by decide, by decide, by decide⟩,
    ⟨((menuBack_spec stChild 0 (by decide)).2 5 (by decide)).1,
      ((menuBack_spec stChild 0 (by decide)).2 5 (by decide)).2.2.1 (by decide)⟩⟩

/-- C10: for an item whose pValue is null, printItem substitutes the
internal empty dummy string and forces the value kind to M_STRING no
matter what the value kind flag bits say; the value field therefore has
zero width, every draw call issued is a string draw (the value pointee is
never read as a float or as an integer), and the value itself is drawn as
the empty string. -/
theorem printItem_null_value_safe (env : LcdEnv) (pMenu : Menu) (nItem page nrSize0 : Nat)
    (hnull : (pMenu.pItems.getD nItem default).pValue = none)
    (hempty : env.getStringLength "" = 0) :
    (printItem env pMenu nItem page nrSize0).pValueFlagsEff = M_STRING ∧
    (printItem env pMenu nItem page nrSize0).valSize = 0 ∧
    (∃ x, (printItem env pMenu nItem page nrSize0).calls.getLast? =
      some (DrawCall.printString "" x page)) ∧
    (∀ c ∈ (printItem env pMenu nItem page nrSize0).calls,
      ∃ s x pg, c = DrawCall.printString s x pg) := by
  have hnull' : (pMenu.pItems[nItem]?.getD default).pValue = none := by
    simpa [List.getD] using hnull
  refine ⟨?_, ?_, ?_, ?_⟩
  · simp [printItem, hnull']
  · simp [printItem, hnull', asString, hempty, u8, M_STRING, M_FLOAT1, M_FLOAT2, M_FLOAT3,
      M_FLOAT4, M_FLOAT5, M_FLOATA, M_PVALUE_0, M_PVALUE_1, M_PVALUE_2]
  · refine ⟨(printItem env pMenu nItem page nrSize0).valPos, ?_⟩
    simp only [printItem, List.getLast?_concat]
    rw [hnull]
    simp [asString]
  · intro c hc
    simp only [printItem, hnull, eq_self_iff_true, if_true] at hc
    simp only [List.mem_append, List.mem_cons, List.not_mem_nil, or_false] at hc
    rcases hc with ((hc | hc) | hc) | hc
    · exact ⟨_, _, _, hc⟩
    · exact ⟨_, _, _, hc⟩
    · by_cases hs : decide ((nItem : Int) = pMenu.nSelectedItem) = true
      · rw [if_pos hs] at hc
        simp only [List.mem_cons, List.not_mem_nil, or_false] at hc
        exact ⟨_, _, _, hc⟩
      · rw [if_neg hs] at hc
        simp at hc
    · exact ⟨_, _, _, hc⟩

/-- Witness for printItem_null_value_safe at the default environment and
a one item menu whose item has flags claiming a float value but a null
pValue pointer. -/
def mNullVal : Menu := { pItems := [{ flags := M_FLOATA }], nMenuItems := 1 }

theorem printItem_null_value_safe_witness :
    ((mNullVal.pItems.getD 0 default).pValue = none ∧
      LcdEnv.getStringLength {} "" = 0) ∧
    ((printItem {} mNullVal 0 1 0).pValueFlagsEff = M_STRING ∧
      (printItem {} mNullVal 0 1 0).valSize = 0) :=
  ⟨⟨by decide, rfl⟩,
    ⟨(printItem_null_value_safe {} mNullVal 0 1 0 (by decide) rfl).1,
      (printItem_null_value_safe {} mNullVal 0 1 0 (by decide) rfl).2.1⟩⟩

/-! Characterizations of the two scan loops. -/

theorem scanUp_some {items : List MenuItem} : ∀ {k j : Nat}, scanUp items k = some j →
    j ≤ k ∧ itemDisabled items j = false ∧
      ∀ l, j < l → l ≤ k → itemDisabled items l = true := by
  intro k
  induction k with
  | zero =>
    intro j h
    unfold scanUp at h
    split at h
    case isTrue hd => exact absurd h (by simp)
    case isFalse hd =>
      cases h
      exact ⟨Nat.le_refl 0, by simpa using hd, fun l hl1 hl2 => by omega⟩
  | succ k ih =>
    intro j h
    unfold scanUp at h
    split at h
    case isTrue hd =>
      obtain ⟨h1, h2, h3⟩ := ih h
      refine ⟨by omega, h2, fun l hl1 hl2 => ?_⟩
      rcases Nat.lt_or_ge l (k + 1) with hc | hc
      · exact h3 l hl1 (by omega)
      · have : l = k + 1 := by omega
        rw [this]; exact hd
    case isFalse hd =>
      cases h
      exact ⟨Nat.le_refl _, by simpa using hd, fun l hl1 hl2 => by omega⟩

theorem scanUp_none {items : List MenuItem} : ∀ {k : Nat}, scanUp items k = none →
    ∀ l, l ≤ k → itemDisabled items l = true := by
  intro k
  induction k with
  | zero =>
    intro h l hl
    unfold scanUp at h
    split at h
    · have : l = 0 := by omega
      rw [this]; assumption
    · exact absurd h (by simp)
  | succ k ih =>
    intro h l hl
    unfold scanUp at h
    split at h
    case isTrue hd =>
      rcases Nat.lt_or_ge l (k + 1) with hc | hc
      · exact ih h l (by omega)
      · have : l = k + 1 := by omega
        rw [this]; exact hd
    case isFalse hd => exact absurd h (by simp)

theorem scanUp_eq_some {items : List MenuItem} : ∀ {k j : Nat}, j ≤ k →
    itemDisabled items j = false →
    (∀ l, j < l → l ≤ k → itemDisabled items l = true) →
    scanUp items k = some j := by
  intro k
  induction k with
  | zero =>
    intro j hj hen _
    have : j = 0 := by omega
    subst this
    unfold scanUp
    rw [if_neg (by simp [hen])]
  | succ k ih =>
    intro j hj hen hgap
    unfold scanUp
    rcases Nat.lt_or_ge j (k + 1) with hc | hc
    · rw [if_pos (hgap (k + 1) hc (Nat.le_refl _))]
      exact ih (by omega) hen (fun l hl1 hl2 => hgap l hl1 (by omega))
    · have : j = k + 1 := by omega
      subst this
      rw [if_neg (by simp [hen])]

theorem scanDownGo_some {items : List MenuItem} {n : Nat} :
    ∀ {f a j : Nat}, n ≤ a + f → scanDownGo items n f a = some j →
      a ≤ j ∧ j < n ∧ itemDisabled items j = false ∧
        ∀ l, a ≤ l → l < j → itemDisabled items l = true := by
  intro f
  induction f with
  | zero => intro a j _ h; exact absurd h (by simp [scanDownGo])
  | succ f ih =>
    intro a j hfuel h
    unfold scanDownGo at h
    split at h
    case isTrue ha =>
      split at h
      case isTrue hd =>
        obtain ⟨h1, h2, h3, h4⟩ := ih (by omega) h
        refine ⟨by omega, h2, h3, fun l hl1 hl2 => ?_⟩
        rcases Nat.lt_or_ge a l with hc | hc
        · exact h4 l (by omega) hl2
        · have : l = a := by omega
          rw [this]; exact hd
      case isFalse hd =>
        cases h
        exact ⟨Nat.le_refl _, ha, by simpa using hd, fun l hl1 hl2 => by omega⟩
    case isFalse ha => exact absurd h (by simp)

theorem scanDownGo_none {items : List MenuItem} {n : Nat} :
    ∀ {f a : Nat}, n ≤ a + f → scanDownGo items n f a = none →
      ∀ l, a ≤ l → l < n → itemDisabled items l = true := by
  intro f
  induction f with
  | zero => intro a hfuel _ l hl1 hl2; omega
  | succ f ih =>
    intro a hfuel h l hl1 hl2
    unfold scanDownGo at h
    split at h
    case isTrue ha =>
      split at h
      case isTrue hd =>
        rcases Nat.lt_or_ge a l with hc | hc
        · exact ih (by omega) h l (by omega) hl2
        · have : l = a := by omega
          rw [this]; exact hd
      case isFalse hd => exact absurd h (by simp)
    case isFalse ha => omega

theorem scanDownGo_eq_some {items : List MenuItem} {n : Nat} :
    ∀ {f a j : Nat}, n ≤ a + f → a ≤ j → j < n → itemDisabled items j = false →
      (∀ l, a ≤ l → l < j → itemDisabled items l = true) →
      scanDownGo items n f a = some j := by
  intro f
  induction f with
  | zero => intro a j hfuel hj1 hj2 _ _; omega
  | succ f ih =>
    intro a j hfuel hj1 hj2 hen hgap
    unfold scanDownGo
    rw [if_pos (by omega)]
    rcases Nat.lt_or_ge a j with hc | hc
    · rw [if_pos (hgap a (Nat.le_refl _) hc)]
      exact ih (by omega) (by omega) hj2 hen (fun l hl1 hl2 => hgap l (by omega) hl2)
    · have : j = a := by omega
      subst this
      rw [if_neg (by simp [hen])]

theorem scanDown_some {items : List MenuItem} {n a j : Nat}
    (h : scanDown items n a = some j) :
    a ≤ j ∧ j < n ∧ itemDisabled items j = false ∧
      ∀ l, a ≤ l → l < j → itemDisabled items l = true :=
  scanDownGo_some (by omega) h

theorem scanDown_none {items : List MenuItem} {n a : Nat}
    (h : scanDown items n a = none) :
    ∀ l, a ≤ l → l < n → itemDisabled items l = true :=
  scanDownGo_none (by omega) h

theorem scanDown_eq_some {items : List MenuItem} {n a j : Nat}
    (hj1 : a ≤ j) (hj2 : j < n) (hen : itemDisabled items j = false)
    (hgap : ∀ l, a ≤ l → l < j → itemDisabled items l = true) :
    scanDown items n a = some j :=
  scanDownGo_eq_some (by omega) hj1 hj2 hen hgap

/-! Arithmetic normal forms of menuUp and menuDown for menus whose cursor
fields are in machine range: the int8 and uint8 wraps are the identity
and all comparisons become plain Nat arithmetic.  These are proof layer
restatements, related to the source translations by menuUp_eq and
menuDown_eq. -/

def menuUpN (m : Menu) : Menu × Nat :=
  match (if m.nCurrentItem = 0 then none else scanUp m.pItems (m.nCurrentItem - 1)) with
  | some p =>
    if menuGetScreen m p = m.nScreen ∧ menuGetScreen m m.nCurrentItem = m.nScreen then
      ({m with nCurrentItem := p}, 1)
    else if menuGetScreen m p + 1 = m.nScreen ∧
        m.nScreen ≤ menuGetScreen m m.nCurrentItem then
      ({m with nCurrentItem := p, nScreen := m.nScreen - 1}, 1)
    else if 0 < m.nScreen then ({m with nScreen := m.nScreen - 1}, 1)
    else (m, 0)
  | none =>
    if 0 < m.nScreen then ({m with nScreen := m.nScreen - 1}, 1)
    else (m, 0)

def menuDownN (m : Menu) : Menu × Nat :=
  let lastScreen : Nat :=
    if 0 < m.nMenuItems then menuGetScreen m (m.nMenuItems - 1) else 0
  match scanDown m.pItems m.nMenuItems (m.nCurrentItem + 1) with
  | some j =>
    if menuGetScreen m j = m.nScreen ∧ menuGetScreen m m.nCurrentItem = m.nScreen then
      ({m with nCurrentItem := j}, 1)
    else if menuGetScreen m j = m.nScreen + 1 ∧
        menuGetScreen m m.nCurrentItem ≤ m.nScreen then
      ({m with nCurrentItem := j, nScreen := m.nScreen + 1}, 1)
    else if m.nScreen < lastScreen then ({m with nScreen := m.nScreen + 1}, 1)
    else (m, 0)
  | none =>
    if m.nScreen < lastScreen then ({m with nScreen := m.nScreen + 1}, 1)
    else (m, 0)

theorem menuUp_eq (m : Menu) (hcur : m.nCurrentItem ≤ 127) (hscr : m.nScreen ≤ 127) :
    menuUp m = menuUpN m := by
  have hips : ∀ x : Nat, menuGetScreen m x ≤ x := fun x => Nat.div_le_self _ _
  by_cases h0 : m.nCurrentItem = 0
  · have ha0 : i8 ((m.nCurrentItem : Int) - 1) = -1 := by rw [h0]; decide
    simp only [menuUp, menuUpN, ha0]
    rw [if_pos (show (-1 : Int) < 0 by decide), if_pos h0]
    simp only [Option.isSome_none, Bool.false_eq_true, false_and, if_false]
    split
    next h3 =>
      have hu : (u8 ((m.nScreen : Int) - 1)).toNat = m.nScreen - 1 := by unfold u8; omega
      rw [hu]
    next h3 => rfl
  · have ha0 : i8 ((m.nCurrentItem : Int) - 1) = ((m.nCurrentItem - 1 : Nat) : Int) := by
      unfold i8; omega
    simp only [menuUp, menuUpN, ha0]
    rw [if_neg (show ¬(((m.nCurrentItem - 1 : Nat) : Int) < 0) by omega), if_neg h0,
      Int.toNat_natCast]
    cases hfnd : scanUp m.pItems (m.nCurrentItem - 1) with
    | none =>
      simp only [Option.isSome_none, Bool.false_eq_true, false_and, if_false]
      split
      next h3 =>
        have hu : (u8 ((m.nScreen : Int) - 1)).toNat = m.nScreen - 1 := by unfold u8; omega
        rw [hu]
      next h3 => rfl
    | some p =>
      obtain ⟨hple, hpen, _⟩ := scanUp_some hfnd
      have hu8p : (u8 ((p : Nat) : Int)).toNat = p := by unfold u8; omega
      have hi8p : i8 ((menuGetScreen m p : Nat) : Int) = (menuGetScreen m p : Int) := by
        have := hips p; unfold i8; omega
      have hi8c : i8 ((menuGetScreen m m.nCurrentItem : Nat) : Int) =
          (menuGetScreen m m.nCurrentItem : Int) := by
        have := hips m.nCurrentItem; unfold i8; omega
      have hi8s : i8 ((m.nScreen : Nat) : Int) = (m.nScreen : Int) := by unfold i8; omega
      simp only [Option.isSome_some, hu8p, hi8p, hi8c, hi8s, true_and]
      have hb1 : (((menuGetScreen m p : Nat) : Int) = ((m.nScreen : Nat) : Int) ∧
          ((menuGetScreen m m.nCurrentItem : Nat) : Int) = ((m.nScreen : Nat) : Int)) ↔
          (menuGetScreen m p = m.nScreen ∧
            menuGetScreen m m.nCurrentItem = m.nScreen) := by
        omega
      have hb2 : (((menuGetScreen m p : Nat) : Int) = ((m.nScreen : Nat) : Int) - 1 ∧
          ((menuGetScreen m m.nCurrentItem : Nat) : Int) ≥ ((m.nScreen : Nat) : Int)) ↔
          (menuGetScreen m p + 1 = m.nScreen ∧
            m.nScreen ≤ menuGetScreen m m.nCurrentItem) := by
        omega
      simp only [hb1, hb2]
      split_ifs with h1 h2 h3 <;>
        first
          | rfl
          | (have hu : (u8 ((m.nScreen : Int) - 1)).toNat = m.nScreen - 1 := by
               unfold u8; omega
             rw [hu])

theorem menuDown_eq (m : Menu) (hcur : m.nCurrentItem ≤ 254) (hscr : m.nScreen ≤ 254)
    (hn : m.nMenuItems ≤ 255) :
    menuDown m = menuDownN m := by
  have ha : (u8 ((m.nCurrentItem : Int) + 1)).toNat = m.nCurrentItem + 1 := by
    unfold u8; omega
  have hu : (u8 ((m.nScreen : Int) + 1)).toNat = m.nScreen + 1 := by unfold u8; omega
  simp only [menuDown, menuDownN, ha, hu, gt_iff_lt]
  cases hfnd : scanDown m.pItems m.nMenuItems (m.nCurrentItem + 1) with
  | none =>
    simp only [Option.isSome_none, Bool.false_eq_true, false_and, if_false]
  | some j =>
    obtain ⟨_, hjn, _, _⟩ := scanDown_some hfnd
    have hu8j : (u8 ((j : Nat) : Int)).toNat = j := by unfold u8; omega
    simp only [Option.isSome_some, hu8j, true_and]

/-- The navigation invariant that the four operations provably preserve:
the item count matches the item list and stays within the int8 scan
range, the current item is in range and enabled unless no item at all is
enabled, the current screen is in int8 range, and the selected item is
one of the sentinels -1 / -2 or an in range index that is enabled unless
no item at all is enabled. -/
def Inv3 (m : Menu) : Prop :=
  m.nMenuItems = m.pItems.length ∧ m.nMenuItems ≤ 128 ∧
  m.nCurrentItem < m.nMenuItems ∧
  (itemDisabled m.pItems m.nCurrentItem = false ∨ noEnabled m) ∧
  m.nScreen ≤ 127 ∧
  -2 ≤ m.nSelectedItem ∧
  (0 ≤ m.nSelectedItem →
    m.nSelectedItem.toNat < m.nMenuItems ∧
    (itemDisabled m.pItems m.nSelectedItem.toNat = false ∨ noEnabled m))

theorem Inv3_menuUp (m : Menu) (h : Inv3 m) : Inv3 (menuUp m).1 := by
  obtain ⟨hlen, hn, hcur, hen, hs127, hsel2, hsel⟩ := h
  rw [menuUp_eq m (by omega) (by omega)]
  unfold menuUpN
  split
  next p hfnd =>
    split at hfnd
    · exact absurd hfnd (by simp)
    next hc0 =>
      obtain ⟨hple, hpen, _⟩ := scanUp_some hfnd
      split
      · exact ⟨hlen, hn, by first | omega | (dsimp only; omega), Or.inl hpen, hs127,
          hsel2, hsel⟩
      · split
        · exact ⟨hlen, hn, by first | omega | (dsimp only; omega), Or.inl hpen,
            by first | omega | (dsimp only; omega), hsel2, hsel⟩
        · split
          · exact ⟨hlen, hn, hcur, hen, by first | omega | (dsimp only; omega),
              hsel2, hsel⟩
          · exact ⟨hlen, hn, hcur, hen, hs127, hsel2, hsel⟩
  next hfnd =>
    split
    · exact ⟨hlen, hn, hcur, hen, by first | omega | (dsimp only; omega), hsel2, hsel⟩
    · exact ⟨hlen, hn, hcur, hen, hs127, hsel2, hsel⟩

theorem Inv3_menuDown (m : Menu) (h : Inv3 m) : Inv3 (menuDown m).1 := by
  obtain ⟨hlen, hn, hcur, hen, hs127, hsel2, hsel⟩ := h
  rw [menuDown_eq m (by omega) (by omega) (by omega)]
  simp only [menuDownN]
  have hlast : (if 0 < m.nMenuItems then menuGetScreen m (m.nMenuItems - 1) else 0) ≤ 127 := by
    split
    · exact le_trans (Nat.div_le_self _ _) (by omega)
    · omega
  cases hfnd : scanDown m.pItems m.nMenuItems (m.nCurrentItem + 1) with
  | some j =>
    obtain ⟨hj1, hj2, hjen, _⟩ := scanDown_some hfnd
    have hjs : menuGetScreen m j ≤ j := Nat.div_le_self _ _
    dsimp only
    by_cases hc1 : menuGetScreen m j = m.nScreen ∧ menuGetScreen m m.nCurrentItem = m.nScreen
    · rw [if_pos hc1]
      exact ⟨hlen, hn, by first | omega | (dsimp only; omega), Or.inl hjen, hs127,
        hsel2, hsel⟩
    · rw [if_neg hc1]
      by_cases hc2 : menuGetScreen m j = m.nScreen + 1 ∧
        menuGetScreen m m.nCurrentItem ≤ m.nScreen
      · rw [if_pos hc2]
        exact ⟨hlen, hn, by first | omega | (dsimp only; omega), Or.inl hjen,
          by first | omega | (dsimp only; omega), hsel2, hsel⟩
      · rw [if_neg hc2]
        by_cases hc3 : m.nScreen <
          (if 0 < m.nMenuItems then menuGetScreen m (m.nMenuItems - 1) else 0)
        · rw [if_pos hc3]
          exact ⟨hlen, hn, hcur, hen, by first | omega | (dsimp only; omega),
            hsel2, hsel⟩
        · rw [if_neg hc3]
          exact ⟨hlen, hn, hcur, hen, hs127, hsel2, hsel⟩
  | none =>
    dsimp only
    by_cases hc3 : m.nScreen <
      (if 0 < m.nMenuItems then menuGetScreen m (m.nMenuItems - 1) else 0)
    · rw [if_pos hc3]
      exact ⟨hlen, hn, hcur, hen, by first | omega | (dsimp only; omega), hsel2, hsel⟩
    · rw [if_neg hc3]
      exact ⟨hlen, hn, hcur, hen, hs127, hsel2, hsel⟩

theorem Inv3_posTopAux : ∀ (f : Nat) (m : Menu), Inv3 m → Inv3 (menuPositionTopAux f m) := by
  intro f
  induction f with
  | zero => intro m h; exact h
  | succ f ih =>
    intro m h
    simp only [menuPositionTopAux]
    split
    · exact Inv3_menuUp m h
    · exact ih _ (Inv3_menuUp m h)

theorem Inv3_menuPositionTop (m : Menu) (h : Inv3 m) : Inv3 (menuPositionTop m) :=
  Inv3_posTopAux _ m h

theorem Inv3_parent_change (m : Menu) (x : Option Nat) (h : Inv3 m) :
    Inv3 {m with pParentMenu := x} := h

theorem Inv3_menuEnter (σ : Store) (i : Nat) (h : Inv3 (σ i)) :
    Inv3 ((menuEnterS σ i).1 i) := by
  have hσ1 : ∀ σ1 : Store, Inv3 (σ1 i) → ∀ s : Nat,
      Inv3 ((setMenu σ1 s {σ1 s with pParentMenu := some i}) i) := by
    intro σ1 h1 s
    unfold setMenu
    by_cases hi : i = s
    · rw [if_pos hi, ← hi]
      exact Inv3_parent_change _ _ h1
    · rw [if_neg hi]
      exact h1
  have hselstore : Inv3 ((if (σ i).nSelectedItem > -1 then
      setMenu σ i {σ i with nSelectedItem := i8 ((σ i).nCurrentItem : Int)}
    else σ) i) := by
    split
    · unfold setMenu
      rw [if_pos rfl]
      obtain ⟨hlen, hn, hcur, hen, hs127, hsel2, hsel⟩ := h
      have h8 : i8 ((σ i).nCurrentItem : Int) = ((σ i).nCurrentItem : Int) := by
        unfold i8; omega
      have h8t : (i8 ((σ i).nCurrentItem : Int)).toNat = (σ i).nCurrentItem := by
        unfold i8; omega
      refine ⟨hlen, hn, hcur, hen, hs127, by rw [h8]; dsimp only; omega, fun _ => ?_⟩
      constructor
      · rw [h8t]
        exact hcur
      · rw [h8t]
        exact hen
    · exact h
  simp only [menuEnterS]
  split
  next hscr =>
    split
    next r hr =>
      split
      · exact hselstore
      · split
        next s hs => exact hσ1 _ hselstore s
        · exact hselstore
    next hr =>
      split
      next s hs => exact hσ1 _ hselstore s
      · exact hselstore
  next hscr => exact h

theorem Inv3_menuBack (σ : Store) (i : Nat) (h : Inv3 (σ i)) :
    Inv3 ((menuBackS σ i).1 i) := by
  simp only [menuBackS]
  cases hp : (σ i).pParentMenu with
  | none => exact h
  | some p =>
    unfold setMenu
    dsimp only
    rw [if_pos (show i = i from rfl)]
    split
    · exact Inv3_menuPositionTop _ h
    · split
      · exact h
      next hne1 hne2 =>
        obtain ⟨hlen, hn, hcur, hen, hs127, hsel2, hsel⟩ := h
        have hge : 0 ≤ (σ i).nSelectedItem := by omega
        obtain ⟨hsn, hsen⟩ := hsel hge
        have hu : (u8 (σ i).nSelectedItem).toNat = ((σ i).nSelectedItem).toNat := by
          unfold u8; omega
        rw [hu]
        refine ⟨hlen, hn, hsn, hsen, ?_, hsel2, hsel⟩
        exact le_trans (Nat.div_le_self _ _) (by omega)

/-- C3, as stated, fails: the screen tracking half of the invariant is
not preserved.  Concrete input: items 0..6 disabled, item 7 enabled,
current item 7 on screen 1 (its screen, 7 items per screen); menuUp finds
no enabled item below, takes the screen only branch and leaves current
item 7 shown against screen 0. -/
def mUpBreak : Menu :=
  { pItems := List.replicate 7 ({ flags := M_DISABLED } : MenuItem) ++ [{}],
    nMenuItems := 8, nCurrentItem := 7, nScreen := 1 }

theorem menuUp_breaks_screen_tracking :
    (itemDisabled mUpBreak.pItems mUpBreak.nCurrentItem = false ∧
      mUpBreak.nScreen = menuGetScreen mUpBreak mUpBreak.nCurrentItem ∧
      1 ≤ determineItemsPerScreen mUpBreak) ∧
    (menuUp mUpBreak).1.nScreen ≠
      menuGetScreen (menuUp mUpBreak).1 (menuUp mUpBreak).1.nCurrentItem := by
  decide

/-- C3 (amended): the enabled item half of the data model invariant is
inductive.  If the current item of a well formed menu (item count equal
to the list length and at most 128, screen in int8 range) is enabled or
no item is enabled, and the selected item is a sentinel -1 / -2 or an in
range index that is enabled or no item is enabled, then the state after
menuUp, menuDown, menuEnter or menuBack satisfies the same property.
The screen tracking half (current screen equals the screen of the
current item) is not preserved, as menuUp_breaks_screen_tracking shows. -/
theorem nav_preserves_invariant :
    (∀ m : Menu, Inv3 m → Inv3 (menuUp m).1) ∧
    (∀ m : Menu, Inv3 m → Inv3 (menuDown m).1) ∧
    (∀ (σ : Store) (i : Nat), Inv3 (σ i) → Inv3 ((menuEnterS σ i).1 i)) ∧
    (∀ (σ : Store) (i : Nat), Inv3 (σ i) → Inv3 ((menuBackS σ i).1 i)) :=
  ⟨Inv3_menuUp, Inv3_menuDown, Inv3_menuEnter, Inv3_menuBack⟩

/-- Witness for nav_preserves_invariant at a concrete two item menu. -/
def mInv : Menu := { pItems := [{ flags := M_DISABLED }, {}], nMenuItems := 2,
                     nCurrentItem := 1, nSelectedItem := 1 }

theorem nav_preserves_invariant_witness :
    Inv3 mInv ∧ Inv3 (menuUp mInv).1 :=
  ⟨by unfold Inv3 noEnabled; decide,
    nav_preserves_invariant.1 mInv (by unfold Inv3 noEnabled; decide)⟩

theorem scanUp_eq_none {items : List MenuItem} : ∀ {k : Nat},
    (∀ l, l ≤ k → itemDisabled items l = true) → scanUp items k = none := by
  intro k
  induction k with
  | zero =>
    intro h
    unfold scanUp
    rw [if_pos (h 0 (Nat.le_refl 0))]
  | succ k ih =>
    intro h
    unfold scanUp
    rw [if_pos (h (k + 1) (Nat.le_refl _))]
    exact ih (fun l hl => h l (by omega))

theorem scanDownGo_eq_none {items : List MenuItem} {n : Nat} : ∀ {f a : Nat},
    (∀ l, a ≤ l → l < n → itemDisabled items l = true) → scanDownGo items n f a = none := by
  intro f
  induction f with
  | zero => intro a h; rfl
  | succ f ih =>
    intro a h
    unfold scanDownGo
    split
    next ha =>
      rw [if_pos (h a (Nat.le_refl _) ha)]
      exact ih (fun l hl1 hl2 => h l (by omega) hl2)
    next ha => rfl

theorem scanDown_eq_none {items : List MenuItem} {n a : Nat}
    (h : ∀ l, a ≤ l → l < n → itemDisabled items l = true) : scanDown items n a = none :=
  scanDownGo_eq_none h

theorem menuDown_menuUp_inverse (m : Menu)
    (hlen : m.nMenuItems = m.pItems.length) (hn : m.nMenuItems ≤ 128)
    (hcur : m.nCurrentItem < m.nMenuItems)
    (hscr : m.nScreen = menuGetScreen m m.nCurrentItem)
    (hinv : itemDisabled m.pItems m.nCurrentItem = false ∨ noEnabled m)
    (hdown : (menuDown m).2 = 1) :
    (menuUp (menuDown m).1).1.nCurrentItem = m.nCurrentItem ∧
    (menuUp (menuDown m).1).1.nScreen = m.nScreen := by
  have hmono : ∀ x y : Nat, x ≤ y → menuGetScreen m x ≤ menuGetScreen m y :=
    fun x y h => Nat.div_le_div_right h
  have hscme : menuGetScreen m m.nCurrentItem ≤ m.nCurrentItem := Nat.div_le_self _ _
  have hlastle : menuGetScreen m (m.nMenuItems - 1) ≤ m.nMenuItems - 1 :=
    Nat.div_le_self _ _
  have hlast0 : 0 < m.nMenuItems := by omega
  rw [menuDown_eq m (by omega) (by omega) (by omega)] at hdown ⊢
  simp only [menuDownN, if_pos hlast0] at hdown ⊢
  cases hfd : scanDown m.pItems m.nMenuItems (m.nCurrentItem + 1) with
  | some j =>
    obtain ⟨hj1, hj2, hjen, hjgap⟩ := scanDown_some hfd
    have hcen : itemDisabled m.pItems m.nCurrentItem = false := by
      rcases hinv with h | h
      · exact h
      · exact absurd hjen (by simp [h j hj2])
    have hjs : menuGetScreen m m.nCurrentItem ≤ menuGetScreen m j := hmono _ _ (by omega)
    have hlastj : menuGetScreen m j ≤ menuGetScreen m (m.nMenuItems - 1) :=
      hmono _ _ (by omega)
    dsimp only
    by_cases hca : menuGetScreen m j = m.nScreen
    · -- branch b1 of menuDown
      rw [if_pos ⟨hca, hscr.symm⟩]
      have hgs1 : ∀ x, menuGetScreen {m with nCurrentItem := j} x = menuGetScreen m x :=
        fun _ => rfl
      rw [menuUp_eq _ (by dsimp only; omega) (by dsimp only; omega)]
      unfold menuUpN
      dsimp only
      simp only [hgs1]
      rw [if_neg (show ¬(j = 0) by omega)]
      rw [scanUp_eq_some (by omega) hcen
        (fun l hl1 hl2 => hjgap l (by omega) (by omega))]
      dsimp only
      rw [if_pos ⟨hscr.symm, hca⟩]
      exact ⟨rfl, rfl⟩
    · rw [if_neg (by intro hc; exact hca hc.1)]
      by_cases hcb : menuGetScreen m j = m.nScreen + 1
      · -- branch b2 of menuDown
        rw [if_pos ⟨hcb, by omega⟩]
        have hgs1 : ∀ x,
            menuGetScreen {m with nCurrentItem := j, nScreen := m.nScreen + 1} x =
              menuGetScreen m x := fun _ => rfl
        rw [menuUp_eq _ (by dsimp only; omega) (by dsimp only; omega)]
        unfold menuUpN
        dsimp only
        simp only [hgs1]
        rw [if_neg (show ¬(j = 0) by omega)]
        rw [scanUp_eq_some (by omega) hcen
          (fun l hl1 hl2 => hjgap l (by omega) (by omega))]
        dsimp only
        rw [if_neg (by intro hc; omega)]
        rw [if_pos ⟨by omega, by omega⟩]
        exact ⟨rfl, by dsimp only; omega⟩
      · -- branch b3 of menuDown
        have hge2 : m.nScreen + 2 ≤ menuGetScreen m j := by omega
        rw [if_neg (by intro hc; exact hcb hc.1)]
        rw [if_pos (show m.nScreen < menuGetScreen m (m.nMenuItems - 1) by omega)]
        have hgs1 : ∀ x, menuGetScreen {m with nScreen := m.nScreen + 1} x =
            menuGetScreen m x := fun _ => rfl
        rw [menuUp_eq _ (by dsimp only; omega) (by dsimp only; omega)]
        unfold menuUpN
        dsimp only
        simp only [hgs1]
        by_cases hc0 : m.nCurrentItem = 0
        · rw [if_pos hc0]
          rw [if_pos (by omega)]
          exact ⟨rfl, by dsimp only; omega⟩
        · rw [if_neg hc0]
          cases hfu : scanUp m.pItems (m.nCurrentItem - 1) with
          | none =>
            dsimp only
            rw [if_pos (by omega)]
            exact ⟨rfl, by dsimp only; omega⟩
          | some p =>
            obtain ⟨hp1, hpen, hpgap⟩ := scanUp_some hfu
            have hps : menuGetScreen m p ≤ menuGetScreen m m.nCurrentItem :=
              hmono _ _ (by omega)
            dsimp only
            rw [if_neg (by intro hc; omega)]
            rw [if_neg (by intro hc; omega)]
            rw [if_pos (by omega)]
            exact ⟨rfl, by dsimp only; omega⟩
  | none =>
    rw [hfd] at hdown
    dsimp only at hdown ⊢
    have hb3 : m.nScreen < menuGetScreen m (m.nMenuItems - 1) := by
      by_contra hc
      rw [if_neg hc] at hdown
      exact absurd hdown (by simp)
    rw [if_pos hb3]
    have hgs1 : ∀ x, menuGetScreen {m with nScreen := m.nScreen + 1} x =
        menuGetScreen m x := fun _ => rfl
    rw [menuUp_eq _ (by dsimp only; omega) (by dsimp only; omega)]
    unfold menuUpN
    dsimp only
    simp only [hgs1]
    by_cases hc0 : m.nCurrentItem = 0
    · rw [if_pos hc0]
      rw [if_pos (by omega)]
      exact ⟨rfl, by dsimp only; omega⟩
    · rw [if_neg hc0]
      cases hfu : scanUp m.pItems (m.nCurrentItem - 1) with
      | none =>
        dsimp only
        rw [if_pos (by omega)]
        exact ⟨rfl, by dsimp only; omega⟩
      | some p =>
        obtain ⟨hp1, hpen, hpgap⟩ := scanUp_some hfu
        have hps : menuGetScreen m p ≤ menuGetScreen m m.nCurrentItem :=
          hmono _ _ (by omega)
        dsimp only
        rw [if_neg (by intro hc; omega)]
        rw [if_neg (by intro hc; omega)]
        rw [if_pos (by omega)]
        exact ⟨rfl, by dsimp only; omega⟩
theorem menuDown_at_screen_pred (m : Menu)
    (hlen : m.nMenuItems = m.pItems.length) (hn : m.nMenuItems ≤ 128)
    (hcur : m.nCurrentItem < m.nMenuItems)
    (hscr : m.nScreen = menuGetScreen m m.nCurrentItem)
    (h0s : 0 < m.nScreen)
    (hdown : (menuDown m).2 = 1) :
    (menuDown {m with nScreen := m.nScreen - 1}).1.nCurrentItem = m.nCurrentItem ∧
    (menuDown {m with nScreen := m.nScreen - 1}).1.nScreen = m.nScreen := by
  have hmono : ∀ x y : Nat, x ≤ y → menuGetScreen m x ≤ menuGetScreen m y :=
    fun x y h => Nat.div_le_div_right h
  have hscme : menuGetScreen m m.nCurrentItem ≤ m.nCurrentItem := Nat.div_le_self _ _
  have hlast0 : 0 < m.nMenuItems := by omega
  have hgs : ∀ x, menuGetScreen {m with nScreen := m.nScreen - 1} x = menuGetScreen m x :=
    fun _ => rfl
  rw [menuDown_eq m (by omega) (by omega) (by omega)] at hdown
  simp only [menuDownN, if_pos hlast0] at hdown
  rw [menuDown_eq _ (by dsimp only; omega) (by dsimp only; omega) (by dsimp only; omega)]
  simp only [menuDownN]
  simp only [hgs, if_pos hlast0]
  cases hfd : scanDown m.pItems m.nMenuItems (m.nCurrentItem + 1) with
  | some j =>
    obtain ⟨hj1, hj2, hjen, hjgap⟩ := scanDown_some hfd
    have hjs : menuGetScreen m m.nCurrentItem ≤ menuGetScreen m j := hmono _ _ (by omega)
    have hlastj : menuGetScreen m j ≤ menuGetScreen m (m.nMenuItems - 1) :=
      hmono _ _ (by omega)
    dsimp only
    rw [if_neg (by intro hc; omega)]
    rw [if_neg (by intro hc; omega)]
    rw [if_pos (by omega)]
    exact ⟨rfl, by dsimp only; omega⟩
  | none =>
    rw [hfd] at hdown
    dsimp only at hdown ⊢
    have hb3 : m.nScreen < menuGetScreen m (m.nMenuItems - 1) := by
      by_contra hc
      rw [if_neg hc] at hdown
      exact absurd hdown (by simp)
    rw [if_pos (by omega)]
    exact ⟨rfl, by dsimp only; omega⟩

theorem menuUp_menuDown_inverse (m : Menu)
    (hlen : m.nMenuItems = m.pItems.length) (hn : m.nMenuItems ≤ 128)
    (hcur : m.nCurrentItem < m.nMenuItems)
    (hscr : m.nScreen = menuGetScreen m m.nCurrentItem)
    (hinv : itemDisabled m.pItems m.nCurrentItem = false ∨ noEnabled m)
    (hup : (menuUp m).2 = 1) (hdown : (menuDown m).2 = 1) :
    (menuDown (menuUp m).1).1.nCurrentItem = m.nCurrentItem ∧
    (menuDown (menuUp m).1).1.nScreen = m.nScreen := by
  have hmono : ∀ x y : Nat, x ≤ y → menuGetScreen m x ≤ menuGetScreen m y :=
    fun x y h => Nat.div_le_div_right h
  have hscme : menuGetScreen m m.nCurrentItem ≤ m.nCurrentItem := Nat.div_le_self _ _
  have hlast0 : 0 < m.nMenuItems := by omega
  rw [menuUp_eq m (by omega) (by omega)] at hup ⊢
  unfold menuUpN at hup ⊢
  by_cases hc0 : m.nCurrentItem = 0
  · rw [if_pos hc0] at hup
    dsimp only at hup
    have hs0 : m.nScreen = 0 := by
      rw [hscr, hc0]
      have : menuGetScreen m 0 = 0 := Nat.zero_div _
      omega
    rw [if_neg (by omega)] at hup
    exact absurd hup (by simp)
  · rw [if_neg hc0] at hup ⊢
    cases hfu : scanUp m.pItems (m.nCurrentItem - 1) with
    | none =>
      rw [hfu] at hup
      dsimp only at hup ⊢
      have h0s : 0 < m.nScreen := by
        by_contra hc
        rw [if_neg hc] at hup
        exact absurd hup (by simp)
      rw [if_pos h0s]
      exact menuDown_at_screen_pred m hlen hn hcur hscr h0s hdown
    | some p =>
      rw [hfu] at hup
      obtain ⟨hp1, hpen, hpgap⟩ := scanUp_some hfu
      have hcen : itemDisabled m.pItems m.nCurrentItem = false := by
        rcases hinv with h | h
        · exact h
        · exact absurd hpen (by simp [h p (by omega)])
      have hps : menuGetScreen m p ≤ menuGetScreen m m.nCurrentItem :=
        hmono _ _ (by omega)
      dsimp only at hup ⊢
      by_cases hca : menuGetScreen m p = m.nScreen
      · rw [if_pos ⟨hca, hscr.symm⟩]
        have hgs1 : ∀ x, menuGetScreen {m with nCurrentItem := p} x = menuGetScreen m x :=
          fun _ => rfl
        rw [menuDown_eq _ (by dsimp only; omega) (by dsimp only; omega) (by dsimp only; omega)]
        simp only [menuDownN]
        simp only [hgs1, if_pos hlast0]
        rw [scanDown_eq_some (by omega) hcur hcen
          (fun l hl1 hl2 => hpgap l (by omega) (by omega))]
        dsimp only
        rw [if_pos ⟨hscr.symm, hca⟩]
        exact ⟨rfl, rfl⟩
      · rw [if_neg (by intro hc; exact hca hc.1)]
        by_cases hcb : menuGetScreen m p + 1 = m.nScreen
        · rw [if_pos ⟨hcb, by omega⟩]
          have hgs1 : ∀ x,
              menuGetScreen {m with nCurrentItem := p, nScreen := m.nScreen - 1} x =
                menuGetScreen m x := fun _ => rfl
          rw [menuDown_eq _ (by dsimp only; omega) (by dsimp only; omega)
            (by dsimp only; omega)]
          simp only [menuDownN]
          simp only [hgs1, if_pos hlast0]
          rw [scanDown_eq_some (by omega) hcur hcen
            (fun l hl1 hl2 => hpgap l (by omega) (by omega))]
          dsimp only
          rw [if_neg (by intro hc; omega)]
          rw [if_pos ⟨by omega, by omega⟩]
          exact ⟨rfl, by dsimp only; omega⟩
        · rw [if_neg (by intro hc; exact hcb hc.1)]
          have h0s : 0 < m.nScreen := by
            by_contra hc
            exact hca (by omega)
          rw [if_pos h0s]
          exact menuDown_at_screen_pred m hlen hn hcur hscr h0s hdown
/-- Counterexample input for the unconditional reading of C5: three items with
the middle one disabled, one item per screen (reservedAreas blocks pages 1-6),
cursor on item 2 but nScreen desynchronised at 1. -/
def mRev : Menu :=
  { pItems := [{}, { flags := M_DISABLED }, {}], nMenuItems := 3,
    nCurrentItem := 2, nScreen := 1, reservedAreas := 126 }

/-- C5 (counterexample): from mRev both menuUp and menuDown report a change
(return 1), yet applying menuUp then menuDown moves the cursor to item 0
instead of restoring item 2 — the unconditional reversibility claim fails when
nScreen is not the screen of the current item. -/
theorem menu_updown_not_unconditionally_reversible :
    (menuUp mRev).2 = 1 ∧ (menuDown mRev).2 = 1 ∧
    (menuDown (menuUp mRev).1).1.nCurrentItem ≠ mRev.nCurrentItem := by
  decide

/-- C5 (amended): for a well-formed menu (item count equal to the list length
and at most 128) whose screen index is the screen of the current item and whose
current item is enabled (or no item is enabled), if both menuDown and menuUp
report a change (return 1), then menuDown followed by menuUp — and likewise
menuUp followed by menuDown — restores the original (nCurrentItem, nScreen)
pair. -/
theorem menu_updown_reversible (m : Menu)
    (hlen : m.nMenuItems = m.pItems.length) (hn : m.nMenuItems ≤ 128)
    (hcur : m.nCurrentItem < m.nMenuItems)
    (hscr : m.nScreen = menuGetScreen m m.nCurrentItem)
    (hinv : itemDisabled m.pItems m.nCurrentItem = false ∨ noEnabled m)
    (hup : (menuUp m).2 = 1) (hdown : (menuDown m).2 = 1) :
    ((menuUp (menuDown m).1).1.nCurrentItem = m.nCurrentItem ∧
     (menuUp (menuDown m).1).1.nScreen = m.nScreen) ∧
    ((menuDown (menuUp m).1).1.nCurrentItem = m.nCurrentItem ∧
     (menuDown (menuUp m).1).1.nScreen = m.nScreen) :=
  ⟨menuDown_menuUp_inverse m hlen hn hcur hscr hinv hdown,
   menuUp_menuDown_inverse m hlen hn hcur hscr hinv hup hdown⟩

/-- Concrete menu meeting all hypotheses of menu_updown_reversible: three
enabled items, one per screen, cursor on the middle item with nScreen in
sync. -/
def mRevW : Menu :=
  { pItems := [{}, {}, {}], nMenuItems := 3,
    nCurrentItem := 1, nScreen := 1, reservedAreas := 126 }

/-- Witness for menu_updown_reversible at mRevW. -/
theorem menu_updown_reversible_witness :
    ((menuUp (menuDown mRevW).1).1.nCurrentItem = mRevW.nCurrentItem ∧
     (menuUp (menuDown mRevW).1).1.nScreen = mRevW.nScreen) ∧
    ((menuDown (menuUp mRevW).1).1.nCurrentItem = mRevW.nCurrentItem ∧
     (menuDown (menuUp mRevW).1).1.nScreen = mRevW.nScreen) :=
  menu_updown_reversible mRevW (by decide) (by decide) (by decide) (by decide)
    (Or.inl (by decide)) (by decide) (by decide)
/-- Loop invariant of the menuPositionTop iteration when the current item is
enabled: the screen index is at or below the current item's screen, every
enabled item below the cursor sits at or below the screen index, and strictly
below it once the screen has moved past the current item's screen. -/
def PosTopInv (m : Menu) : Prop :=
  m.nMenuItems = m.pItems.length ∧ m.nMenuItems ≤ 128 ∧
  m.nCurrentItem < m.nMenuItems ∧
  itemDisabled m.pItems m.nCurrentItem = false ∧
  m.nScreen ≤ menuGetScreen m m.nCurrentItem ∧
  (∀ i, i < m.nCurrentItem → itemDisabled m.pItems i = false →
    menuGetScreen m i ≤ m.nScreen) ∧
  (m.nScreen < menuGetScreen m m.nCurrentItem →
    ∀ i, i < m.nCurrentItem → itemDisabled m.pItems i = false →
      menuGetScreen m i < m.nScreen)

theorem posTopAux_enabled : ∀ (fuel : Nat) (m : Menu), PosTopInv m →
    m.nCurrentItem + m.nScreen < fuel →
    (menuPositionTopAux fuel m).nScreen = 0 ∧
    itemDisabled m.pItems (menuPositionTopAux fuel m).nCurrentItem = false ∧
    ∀ i, i < (menuPositionTopAux fuel m).nCurrentItem →
      itemDisabled m.pItems i = true := by
  intro fuel
  induction fuel with
  | zero => intro m _ hf; omega
  | succ f ih =>
    intro m hJ hf
    obtain ⟨hlen, hn, hcur, hen, hsle, hall, hstrict⟩ := hJ
    have hscme : menuGetScreen m m.nCurrentItem ≤ m.nCurrentItem := Nat.div_le_self _ _
    have hmono : ∀ x y : Nat, x ≤ y → menuGetScreen m x ≤ menuGetScreen m y :=
      fun x y h => Nat.div_le_div_right h
    have hupe : menuUp m = menuUpN m := menuUp_eq m (by omega) (by omega)
    have hstep :
        (menuUpN m = (m, 0) ∧ m.nScreen = 0 ∧
          ∀ i, i < m.nCurrentItem → itemDisabled m.pItems i = true) ∨
        (PosTopInv (menuUpN m).1 ∧ (menuUpN m).2 = 1 ∧
          (menuUpN m).1.nCurrentItem + (menuUpN m).1.nScreen <
            m.nCurrentItem + m.nScreen ∧
          (menuUpN m).1.pItems = m.pItems) := by
      unfold menuUpN
      by_cases hc0 : m.nCurrentItem = 0
      · rw [if_pos hc0]
        have hgc0 : menuGetScreen m 0 = 0 := Nat.zero_div _
        rw [hc0] at hsle
        have hs0 : m.nScreen = 0 := by omega
        dsimp only
        rw [if_neg (by omega)]
        exact Or.inl ⟨rfl, hs0, fun i hi => absurd hi (by omega)⟩
      · rw [if_neg hc0]
        cases hfd : scanUp m.pItems (m.nCurrentItem - 1) with
        | none =>
          have hdis := scanUp_none hfd
          dsimp only
          by_cases hsp : 0 < m.nScreen
          · rw [if_pos hsp]
            refine Or.inr ⟨?_, rfl, by dsimp only; omega, rfl⟩
            have hgs1 : ∀ x, menuGetScreen {m with nScreen := m.nScreen - 1} x =
                menuGetScreen m x := fun _ => rfl
            unfold PosTopInv
            dsimp only
            simp only [hgs1]
            refine ⟨hlen, hn, hcur, hen, by omega, ?_, ?_⟩
            · intro i hi hie
              exact absurd (hdis i (by omega)) (by simp [hie])
            · intro _ i hi hie
              exact absurd (hdis i (by omega)) (by simp [hie])
          · rw [if_neg hsp]
            exact Or.inl ⟨rfl, by omega, fun i hi => hdis i (by omega)⟩
        | some p =>
          obtain ⟨hple, hpen, hgap⟩ := scanUp_some hfd
          have hpc : p < m.nCurrentItem := by omega
          have hpsle : menuGetScreen m p ≤ m.nScreen := hall p hpc hpen
          dsimp only
          by_cases hb1 : menuGetScreen m p = m.nScreen ∧
              menuGetScreen m m.nCurrentItem = m.nScreen
          · rw [if_pos hb1]
            obtain ⟨hb11, hb12⟩ := hb1
            refine Or.inr ⟨?_, rfl, by dsimp only; omega, rfl⟩
            have hgs1 : ∀ x, menuGetScreen {m with nCurrentItem := p} x =
                menuGetScreen m x := fun _ => rfl
            unfold PosTopInv
            dsimp only
            simp only [hgs1]
            refine ⟨hlen, hn, by omega, hpen, by omega, ?_, ?_⟩
            · intro i hi hie
              have := hmono i p (by omega)
              omega
            · intro hlt i hi hie
              omega
          · rw [if_neg hb1]
            by_cases hb2 : menuGetScreen m p + 1 = m.nScreen ∧
                m.nScreen ≤ menuGetScreen m m.nCurrentItem
            · rw [if_pos hb2]
              obtain ⟨hb21, hb22⟩ := hb2
              refine Or.inr ⟨?_, rfl, by dsimp only; omega, rfl⟩
              have hgs1 : ∀ x,
                  menuGetScreen {m with nCurrentItem := p, nScreen := m.nScreen - 1} x =
                    menuGetScreen m x := fun _ => rfl
              unfold PosTopInv
              dsimp only
              simp only [hgs1]
              refine ⟨hlen, hn, by omega, hpen, by omega, ?_, ?_⟩
              · intro i hi hie
                have := hmono i p (by omega)
                omega
              · intro hlt i hi hie
                omega
            · rw [if_neg hb2]
              by_cases hsp : 0 < m.nScreen
              · rw [if_pos hsp]
                have hpst : menuGetScreen m p < m.nScreen := by
                  rcases Nat.lt_or_ge (menuGetScreen m p) m.nScreen with h | h
                  · exact h
                  · have he1 : menuGetScreen m p = m.nScreen := by omega
                    have hc2 : m.nScreen < menuGetScreen m m.nCurrentItem := by
                      rcases Nat.lt_or_ge m.nScreen
                          (menuGetScreen m m.nCurrentItem) with h2 | h2
                      · exact h2
                      · exact absurd ⟨he1, by omega⟩ hb1
                    exact absurd (hstrict hc2 p hpc hpen) (by omega)
                have hpst1 : menuGetScreen m p + 1 < m.nScreen := by
                  by_contra hcon
                  exact hb2 ⟨by omega, hsle⟩
                refine Or.inr ⟨?_, rfl, by dsimp only; omega, rfl⟩
                have hgs1 : ∀ x, menuGetScreen {m with nScreen := m.nScreen - 1} x =
                    menuGetScreen m x := fun _ => rfl
                unfold PosTopInv
                dsimp only
                simp only [hgs1]
                refine ⟨hlen, hn, hcur, hen, by omega, ?_, ?_⟩
                · intro i hi hie
                  have hip : i ≤ p := by
                    by_contra hcon
                    exact absurd (hgap i (by omega) (by omega)) (by simp [hie])
                  have := hmono i p hip
                  omega
                · intro _ i hi hie
                  have hip : i ≤ p := by
                    by_contra hcon
                    exact absurd (hgap i (by omega) (by omega)) (by simp [hie])
                  have := hmono i p hip
                  omega
              · exfalso
                have hgc : 0 < menuGetScreen m m.nCurrentItem := by
                  rcases Nat.eq_zero_or_pos (menuGetScreen m m.nCurrentItem) with h | h
                  · exact absurd ⟨by omega, by omega⟩ hb1
                  · exact h
                have := hstrict (by omega) p hpc hpen
                omega
    rcases hstep with ⟨he, hs0, hbelow⟩ | ⟨hJ2, h1, hdec, hpi⟩
    · have hred : menuPositionTopAux (f + 1) m = m := by
        simp [menuPositionTopAux, hupe, he]
      rw [hred]
      exact ⟨hs0, hen, hbelow⟩
    · have hred : menuPositionTopAux (f + 1) m =
          menuPositionTopAux f (menuUpN m).1 := by
        simp [menuPositionTopAux, hupe, h1]
      have hrec := ih (menuUpN m).1 hJ2 (by omega)
      rw [hpi] at hrec
      rw [hred]
      exact hrec

theorem posTopAux_noEnabled : ∀ (fuel : Nat) (m : Menu), noEnabled m →
    m.nCurrentItem < m.nMenuItems → m.nMenuItems ≤ 128 → m.nScreen ≤ 127 →
    m.nScreen < fuel →
    (menuPositionTopAux fuel m).nScreen = 0 ∧
    (menuPositionTopAux fuel m).nCurrentItem = m.nCurrentItem := by
  intro fuel
  induction fuel with
  | zero => intro m _ _ _ _ hf; omega
  | succ f ih =>
    intro m hne hcur hn hs127 hf
    have hupe : menuUp m = menuUpN m := menuUp_eq m (by omega) (by omega)
    have hfd : (if m.nCurrentItem = 0 then none
        else scanUp m.pItems (m.nCurrentItem - 1)) = none := by
      by_cases hc0 : m.nCurrentItem = 0
      · rw [if_pos hc0]
      · rw [if_neg hc0]
        exact scanUp_eq_none (fun l hl => hne l (by omega))
    by_cases hsp : 0 < m.nScreen
    · have hstep : menuUpN m = ({m with nScreen := m.nScreen - 1}, 1) := by
        unfold menuUpN
        rw [hfd]
        dsimp only
        rw [if_pos hsp]
      simp only [menuPositionTopAux, hupe, hstep]
      rw [if_neg Nat.one_ne_zero]
      exact ih {m with nScreen := m.nScreen - 1} hne hcur hn (by dsimp only; omega)
        (by dsimp only; omega)
    · have hstep : menuUpN m = (m, 0) := by
        unfold menuUpN
        rw [hfd]
        dsimp only
        rw [if_neg hsp]
      simp only [menuPositionTopAux, hupe, hstep, if_true]
      refine ⟨by omega, by trivial⟩
/-- Counterexample input for the unconditional reading of C4: the first item
is disabled, the second enabled, and the cursor starts on the disabled first
item. -/
def m4 : Menu := { pItems := [{ flags := M_DISABLED }, {}], nMenuItems := 2 }

/-- C4 (counterexample): m4 has a nonzero itemsPerScreen and its lowest
enabled item is index 1, yet menuPositionTop leaves nCurrentItem at 0 (a
disabled item): menuUp only ever scans below the cursor, so it can never
reach an enabled item above it. -/
theorem menuPositionTop_misses_enabled_above :
    0 < determineItemsPerScreen m4 ∧
    itemDisabled m4.pItems 1 = false ∧ 1 < m4.nMenuItems ∧
    (menuPositionTop m4).nCurrentItem = 0 ∧
    itemDisabled m4.pItems 0 = true := by
  decide

/-- C4 (amended): for a well-formed menu (item count equal to the list length
and at most 128, cursor in range, nonzero itemsPerScreen) whose screen index
is the screen of the current item, after menuPositionTop the screen index is
0 and: if the current item is enabled, the cursor lands on the lowest-index
enabled item; if no item is enabled, the cursor is unchanged.  The original
claim's 'lowest index whose item has the disabled flag clear' only holds when
the starting current item is itself enabled (or nothing is), since menuUp
never moves the cursor upward. -/
theorem menuPositionTop_spec (m : Menu)
    (hlen : m.nMenuItems = m.pItems.length) (hn : m.nMenuItems ≤ 128)
    (hcur : m.nCurrentItem < m.nMenuItems)
    (hscr : m.nScreen = menuGetScreen m m.nCurrentItem)
    (hips : 0 < determineItemsPerScreen m)
    (hinv : itemDisabled m.pItems m.nCurrentItem = false ∨ noEnabled m) :
    (menuPositionTop m).nScreen = 0 ∧
    (itemDisabled m.pItems m.nCurrentItem = false →
      itemDisabled m.pItems (menuPositionTop m).nCurrentItem = false ∧
      ∀ i, i < (menuPositionTop m).nCurrentItem → itemDisabled m.pItems i = true) ∧
    (noEnabled m → (menuPositionTop m).nCurrentItem = m.nCurrentItem) := by
  have hscme : menuGetScreen m m.nCurrentItem ≤ m.nCurrentItem := Nat.div_le_self _ _
  have hmono : ∀ x y : Nat, x ≤ y → menuGetScreen m x ≤ menuGetScreen m y :=
    fun x y h => Nat.div_le_div_right h
  unfold menuPositionTop
  by_cases hen : itemDisabled m.pItems m.nCurrentItem = false
  · have hJ : PosTopInv m := by
      refine ⟨hlen, hn, hcur, hen, by omega, ?_, ?_⟩
      · intro i hi hie
        have := hmono i m.nCurrentItem (by omega)
        omega
      · intro hlt i hi hie
        omega
    obtain ⟨h1, h2, h3⟩ :=
      posTopAux_enabled (m.nCurrentItem + m.nScreen + 1) m hJ (by omega)
    refine ⟨h1, fun _ => ⟨h2, h3⟩, fun hne => ?_⟩
    exact absurd (hne _ hcur) (by simp [hen])
  · have hne : noEnabled m := by
      rcases hinv with h | h
      · exact absurd h hen
      · exact h
    obtain ⟨h1, h2⟩ :=
      posTopAux_noEnabled (m.nCurrentItem + m.nScreen + 1) m hne hcur hn
        (by omega) (by omega)
    exact ⟨h1, fun hc => absurd hc hen, fun _ => h2⟩

/-- Concrete menu meeting all hypotheses of menuPositionTop_spec: items
disabled, enabled, enabled with the cursor on the last (enabled) item, one
item per screen, screen in sync. -/
def mPT : Menu :=
  { pItems := [{ flags := M_DISABLED }, {}, {}], nMenuItems := 3,
    nCurrentItem := 2, nScreen := 2, reservedAreas := 126 }

/-- Witness for menuPositionTop_spec at mPT. -/
theorem menuPositionTop_spec_witness :
    (menuPositionTop mPT).nScreen = 0 ∧
    (itemDisabled mPT.pItems mPT.nCurrentItem = false →
      itemDisabled mPT.pItems (menuPositionTop mPT).nCurrentItem = false ∧
      ∀ i, i < (menuPositionTop mPT).nCurrentItem →
        itemDisabled mPT.pItems i = true) ∧
    (noEnabled mPT → (menuPositionTop mPT).nCurrentItem = mPT.nCurrentItem) :=
  menuPositionTop_spec mPT (by decide) (by decide) (by decide) (by decide)
    (by decide) (Or.inl (by decide))

/-- The corrected k-decimal quantization computed inside determineDecimals:
the truncating (int32) cast of 10^k times the fractional part, scaled to
5-decimal units (lines 590-595), plus the round-off correction of lines
598-603. -/
def decimalAt (k : Nat) (f : Rat) : Int :=
  match k with
  | 5 =>
    let d := cTrunc (100000 * f) * 1
    if 100000 * f - (d : Rat) > 1 / 2 then d + 1 else d
  | 4 =>
    let d := cTrunc (10000 * f) * 10
    if 10000 * f - (d : Rat) > 1 / 2 then d + 1 else d
  | 3 =>
    let d := cTrunc (1000 * f) * 100
    if 1000 * f - (d : Rat) > 1 / 2 then d + 1 else d
  | 2 =>
    let d := cTrunc (100 * f) * 1000
    if 100 * f - (d : Rat) > 1 / 2 then d + 1 else d
  | 1 =>
    let d := cTrunc (10 * f) * 10000
    if 10 * f - (d : Rat) > 1 / 2 then d + 1 else d
  | _ =>
    let d := cTrunc (1 * f) * 100000
    if 1 * f - (d : Rat) > 1 / 2 then d + 1 else d

/-- The sign removal and fractional-part extraction of determineDecimals
(lines 584-585). -/
def fracAbs (number0 : Rat) : Rat :=
  let number1 : Rat := if number0 < 0 then number0 * (-1) else number0
  number1 - (cTrunc number1 : Rat)

theorem determineDecimals_eq_decimalAt (x : Rat) :
    determineDecimals x =
      if decimalAt 5 (fracAbs x) ≠ decimalAt 4 (fracAbs x) then 5
      else if decimalAt 4 (fracAbs x) ≠ decimalAt 3 (fracAbs x) then 4
      else if decimalAt 3 (fracAbs x) ≠ decimalAt 2 (fracAbs x) then 3
      else if decimalAt 2 (fracAbs x) ≠ decimalAt 1 (fracAbs x) then 2
      else if decimalAt 1 (fracAbs x) = decimalAt 0 (fracAbs x) then 0
      else 1 := rfl

theorem ratFloor_eq_intFloor (q : Rat) : q.floor = ⌊q⌋ := by
  rw [Rat.floor_def', Rat.floor_def]

theorem cTrunc_of_nonneg {q : Rat} (h : 0 ≤ q) : cTrunc q = ⌊q⌋ := by
  unfold cTrunc
  rw [if_neg (not_lt.2 h), ratFloor_eq_intFloor]

theorem fracAbs_nonneg (x : Rat) : 0 ≤ fracAbs x := by
  show 0 ≤ (if x < 0 then x * (-1) else x) - (cTrunc (if x < 0 then x * (-1) else x) : Rat)
  set n1 : Rat := if x < 0 then x * (-1) else x with hn1def
  have hn1 : 0 ≤ n1 := by
    rw [hn1def]
    by_cases hx : x < 0
    · rw [if_pos hx]
      nlinarith
    · rw [if_neg hx]
      exact le_of_not_lt hx
  rw [cTrunc_of_nonneg hn1]
  have := Int.floor_le n1
  linarith

theorem decimalAt_step (f : Rat) (hf0 : 0 ≤ f) (A : Rat) (B B' : Int)
    (hA : 1 ≤ A) (hB' : 10 ≤ B') (hBB : B = 10 * B')
    (hAB : A * (B : Rat) = 100000) :
    (if A * f - ((cTrunc (A * f) * B : Int) : Rat) > 1 / 2
      then cTrunc (A * f) * B + 1 else cTrunc (A * f) * B) =
    (if 100000 * f - ((cTrunc (100000 * f) * 1 : Int) : Rat) > 1 / 2
      then cTrunc (100000 * f) * 1 + 1 else cTrunc (100000 * f) * 1) →
    (if 10 * A * f - ((cTrunc (10 * A * f) * B' : Int) : Rat) > 1 / 2
      then cTrunc (10 * A * f) * B' + 1 else cTrunc (10 * A * f) * B') =
    (if 100000 * f - ((cTrunc (100000 * f) * 1 : Int) : Rat) > 1 / 2
      then cTrunc (100000 * f) * 1 + 1 else cTrunc (100000 * f) * 1) := by
  intro hQ
  simp only [mul_one] at hQ ⊢
  have hA0 : (0 : Rat) ≤ A := by linarith
  have hAf0 : 0 ≤ A * f := mul_nonneg hA0 hf0
  have hAf0' : 0 ≤ 10 * A * f := by nlinarith
  have hf50 : (0 : Rat) ≤ 100000 * f := by nlinarith
  rw [cTrunc_of_nonneg hAf0] at hQ
  rw [cTrunc_of_nonneg hf50] at hQ ⊢
  rw [cTrunc_of_nonneg hAf0']
  set t : Int := ⌊A * f⌋
  set t' : Int := ⌊10 * A * f⌋
  set t5 : Int := ⌊100000 * f⌋
  have hts : (t : Rat) ≤ A * f := Int.floor_le _
  have htub : A * f < (t : Rat) + 1 := Int.lt_floor_add_one _
  have ht's : (t' : Rat) ≤ 10 * A * f := Int.floor_le _
  have ht5ub : 100000 * f < (t5 : Rat) + 1 := Int.lt_floor_add_one _
  have ht0 : 0 ≤ t := Int.floor_nonneg.2 hAf0
  have ht'0 : 0 ≤ t' := Int.floor_nonneg.2 hAf0'
  have hB'c : (10 : Rat) ≤ (B' : Rat) := by exact_mod_cast hB'
  have hBc : (B : Rat) = 10 * (B' : Rat) := by exact_mod_cast hBB
  have hB100 : (100 : Rat) ≤ (B : Rat) := by rw [hBc]; linarith
  have hB0 : (0 : Rat) < (B : Rat) := by linarith
  have hB'0 : (0 : Rat) < (B' : Rat) := by linarith
  have hprod : A * f * (B : Rat) = 100000 * f := by linear_combination f * hAB
  have hAB' : A * (10 * (B' : Rat)) = 100000 := by rw [← hBc]; exact hAB
  have hprod' : 10 * A * f * (B' : Rat) = 100000 * f := by linear_combination f * hAB'
  have hDle : ((t * B : Int) : Rat) ≤ 100000 * f := by
    push_cast
    have h1 : (t : Rat) * B ≤ A * f * B := mul_le_mul_of_nonneg_right hts (le_of_lt hB0)
    linarith [hprod]
  have hD'le : ((t' * B' : Int) : Rat) ≤ 100000 * f := by
    push_cast
    have h1 : (t' : Rat) * B' ≤ 10 * A * f * B' :=
      mul_le_mul_of_nonneg_right ht's (le_of_lt hB'0)
    linarith [hprod']
  have hmono10 : 10 * t ≤ t' := by
    apply Int.le_floor.2
    push_cast
    linarith [hts]
  have hD'ge : t * B ≤ t' * B' := by
    have h1 : 10 * t * B' ≤ t' * B' :=
      mul_le_mul_of_nonneg_right hmono10 (by omega)
    calc t * B = 10 * t * B' := by rw [hBB]; ring
    _ ≤ t' * B' := h1
  have hfireK : A * f - ((t * B : Int) : Rat) > 1 / 2 → t = 0 := by
    intro hg
    push_cast at hg
    by_contra hne
    have ht1 : (1 : Rat) ≤ (t : Rat) := by exact_mod_cast (show (1 : Int) ≤ t by omega)
    have hTB : (t : Rat) * 100 ≤ (t : Rat) * B :=
      mul_le_mul_of_nonneg_left hB100 (by linarith)
    linarith [htub]
  have hfireK' : 10 * A * f - ((t' * B' : Int) : Rat) > 1 / 2 → t' = 0 := by
    intro hg
    push_cast at hg
    by_contra hne
    have ht1 : (1 : Rat) ≤ (t' : Rat) := by exact_mod_cast (show (1 : Int) ≤ t' by omega)
    have hTB : (t' : Rat) * 10 ≤ (t' : Rat) * B' :=
      mul_le_mul_of_nonneg_left hB'c (by linarith)
    have htub' : 10 * A * f < (t' : Rat) + 1 := Int.lt_floor_add_one _
    linarith [htub']
  by_cases h5 : 100000 * f - (t5 : Rat) > 1 / 2
  · rw [if_pos h5] at hQ ⊢
    exfalso
    by_cases hk : A * f - ((t * B : Int) : Rat) > 1 / 2
    · rw [if_pos hk] at hQ
      have htz := hfireK hk
      rw [htz] at hQ hk
      simp only [zero_mul, zero_add] at hQ
      have ht5z : t5 = 0 := by omega
      have h1 : 100000 * f < 1 := by
        have hc : (t5 : Rat) = 0 := by exact_mod_cast ht5z
        linarith [ht5ub]
      have hk2 : (1 / 2 : Rat) < A * f := by push_cast at hk; linarith
      have hbig := mul_lt_mul_of_pos_right hk2 hB0
      linarith [hprod]
    · rw [if_neg hk] at hQ
      have hInt : t * B ≤ t5 := Int.le_floor.2 hDle
      linarith [hQ, hInt]
  · rw [if_neg h5] at hQ ⊢
    by_cases hk : A * f - ((t * B : Int) : Rat) > 1 / 2
    · exfalso
      rw [if_pos hk] at hQ
      have htz := hfireK hk
      rw [htz] at hQ hk
      simp only [zero_mul, zero_add] at hQ
      have h1 : 100000 * f < 2 := by
        have hc : (t5 : Rat) = 1 := by exact_mod_cast hQ.symm
        linarith [ht5ub]
      have hk2 : (1 / 2 : Rat) < A * f := by push_cast at hk; linarith
      have hbig := mul_lt_mul_of_pos_right hk2 hB0
      linarith [hprod]
    · rw [if_neg hk] at hQ
      have hInt' : t' * B' ≤ t5 := Int.le_floor.2 hD'le
      have hEq : t' * B' = t5 := le_antisymm hInt' (by linarith [hD'ge, hQ])
      have hnof : ¬(10 * A * f - ((t' * B' : Int) : Rat) > 1 / 2) := by
        intro hfire
        have ht'z := hfireK' hfire
        rw [ht'z] at hEq hfire
        simp only [zero_mul] at hEq
        have h1 : 100000 * f < 1 := by
          have hc : (t5 : Rat) = 0 := by exact_mod_cast hEq.symm
          linarith [ht5ub]
        have hk2 : (1 / 2 : Rat) < 10 * A * f := by push_cast at hfire; linarith
        have hbig := mul_lt_mul_of_pos_right hk2 hB'0
        linarith [hprod']
      rw [if_neg hnof]
      exact hEq

theorem decimalAt_up (f : Rat) (hf0 : 0 ≤ f) :
    ∀ k, k ≤ 4 → decimalAt k f = decimalAt 5 f → decimalAt (k + 1) f = decimalAt 5 f := by
  intro k hk h
  interval_cases k
  · have hstep := decimalAt_step f hf0 1 100000 10000 (by norm_num) (by norm_num)
      (by norm_num) (by norm_num)
    rw [show ((10 : Rat) * 1) = 10 from by norm_num] at hstep
    exact hstep h
  · have hstep := decimalAt_step f hf0 10 10000 1000 (by norm_num) (by norm_num)
      (by norm_num) (by norm_num)
    rw [show ((10 : Rat) * 10) = 100 from by norm_num] at hstep
    exact hstep h
  · have hstep := decimalAt_step f hf0 100 1000 100 (by norm_num) (by norm_num)
      (by norm_num) (by norm_num)
    rw [show ((10 : Rat) * 100) = 1000 from by norm_num] at hstep
    exact hstep h
  · have hstep := decimalAt_step f hf0 1000 100 10 (by norm_num) (by norm_num)
      (by norm_num) (by norm_num)
    rw [show ((10 : Rat) * 1000) = 10000 from by norm_num] at hstep
    exact hstep h
  · show decimalAt 5 f = decimalAt 5 f
    rfl

theorem decimalAt_upward (f : Rat) (hf0 : 0 ≤ f) :
    ∀ j, j ≤ 5 → ∀ k, k ≤ j → decimalAt k f = decimalAt 5 f →
      decimalAt j f = decimalAt 5 f := by
  intro j
  induction j with
  | zero =>
    intro _ k hk h
    interval_cases k
    exact h
  | succ n ih =>
    intro hj k hk h
    rcases Nat.eq_or_lt_of_le hk with he | hlt
    · rw [← he]
      exact h
    · exact decimalAt_up f hf0 n (by omega) (ih (by omega) k (by omega) h)
/-- C9: determineDecimals returns the minimal number of decimals (0 to 5)
whose corrected truncation of the input's fractional part (decimalAt,
translated from the truncating casts and round-off corrections of the code)
equals the corrected truncation at 5 decimals; and the four spec examples
determineDecimals 1.5 = 1, 1.503 = 3, 1.2000000008 = 1, 0.0 = 0 hold in the
exact-rational model. -/
theorem determineDecimals_minimal :
    (∀ x : Rat,
      decimalAt (determineDecimals x) (fracAbs x) = decimalAt 5 (fracAbs x) ∧
      ∀ k, k < determineDecimals x →
        decimalAt k (fracAbs x) ≠ decimalAt 5 (fracAbs x)) ∧
    determineDecimals (3 / 2) = 1 ∧ determineDecimals (1503 / 1000) = 3 ∧
    determineDecimals (12000000008 / 10000000000) = 1 ∧
    determineDecimals 0 = 0 := by
  refine ⟨?_, ?_, ?_, ?_, ?_⟩
  · intro x
    have hf0 := fracAbs_nonneg x
    have hup := decimalAt_upward (fracAbs x) hf0
    rw [determineDecimals_eq_decimalAt x]
    by_cases h54 : decimalAt 5 (fracAbs x) ≠ decimalAt 4 (fracAbs x)
    · rw [if_pos h54]
      refine ⟨rfl, fun k hk hcontra => ?_⟩
      exact h54 ((hup 4 (by omega) k (by omega) hcontra).symm)
    · rw [if_neg h54]
      push_neg at h54
      by_cases h43 : decimalAt 4 (fracAbs x) ≠ decimalAt 3 (fracAbs x)
      · rw [if_pos h43]
        refine ⟨h54.symm, fun k hk hcontra => ?_⟩
        exact h43 (h54.symm.trans (hup 3 (by omega) k (by omega) hcontra).symm)
      · rw [if_neg h43]
        push_neg at h43
        by_cases h32 : decimalAt 3 (fracAbs x) ≠ decimalAt 2 (fracAbs x)
        · rw [if_pos h32]
          refine ⟨(h54.trans h43).symm, fun k hk hcontra => ?_⟩
          exact h32 (h43.symm.trans
            (h54.symm.trans (hup 2 (by omega) k (by omega) hcontra).symm))
        · rw [if_neg h32]
          push_neg at h32
          by_cases h21 : decimalAt 2 (fracAbs x) ≠ decimalAt 1 (fracAbs x)
          · rw [if_pos h21]
            refine ⟨(h54.trans (h43.trans h32)).symm, fun k hk hcontra => ?_⟩
            exact h21 (h32.symm.trans (h43.symm.trans
              (h54.symm.trans (hup 1 (by omega) k (by omega) hcontra).symm)))
          · rw [if_neg h21]
            push_neg at h21
            by_cases h10 : decimalAt 1 (fracAbs x) = decimalAt 0 (fracAbs x)
            · rw [if_pos h10]
              refine ⟨?_, fun k hk => absurd hk (by omega)⟩
              exact h10.symm.trans (h21.symm.trans
                (h32.symm.trans (h43.symm.trans h54.symm)))
            · rw [if_neg h10]
              refine ⟨?_, fun k hk => ?_⟩
              · exact h21.symm.trans (h32.symm.trans (h43.symm.trans h54.symm))
              · have hk0 : k = 0 := by omega
                subst hk0
                intro hcontra
                have hd1 : decimalAt 1 (fracAbs x) = decimalAt 5 (fracAbs x) :=
                  h21.symm.trans (h32.symm.trans (h43.symm.trans h54.symm))
                exact h10 (hd1.trans hcontra.symm)
  · norm_num [determineDecimals, cTrunc, ratFloor_eq_intFloor]
  · norm_num [determineDecimals, cTrunc, ratFloor_eq_intFloor]
  · norm_num [determineDecimals, cTrunc, ratFloor_eq_intFloor]
  · norm_num [determineDecimals, cTrunc, ratFloor_eq_intFloor]

end MenuSys
